import Mathlib

/-!
# Verification of the CAI training-orchestration and progress-tracking service

Shallow embedding of the training pipeline of the CAI repository:

* `src/ai-service/src/core/redis_client.py` — `cache_set` / `cache_get` over a
  JSON-serialising Redis cache;
* `src/ai-service/src/tasks/training_tasks.py` — the Celery training task, the
  status / progress updates and the cancel task;
* `src/ai-service/src/ml/training/trainer.py` — `CADModelTrainer` (defaults,
  epoch loop, checkpointing, early stopping, progress callbacks);
* `src/ai-service/src/api/routes/training.py` — the HTTP create / cancel
  endpoints (default config merge and the cancel status check).

External collaborators (PostgreSQL, Redis, Celery, torch) are modelled as
explicit state threaded through the functions; machine floats appear only in
the 80/20 dataset split, where the binary64 computation `int(n * 0.8)` is
modelled exactly over `Nat`.
-/

namespace CAI

/-! ## Python values and the JSON cache (`src/core/redis_client.py`)

`cache_set` stores `json.dumps(value)` unless the value is already a `str`, in
which case the raw string is stored; `cache_get` first tries `json.loads` and
falls back to the raw string on a parse error.  The value space modelled here
covers the shapes this service stores: `None`, booleans, integers, strings and
string-keyed dicts (nested, in insertion order).  Float formatting and the
exotic corners of the JSON grammar (exponents, unicode escapes, interior
whitespace) are outside the embedding; the serializer below emits exactly what
`json.dumps` emits on this value space (separators `", "` and `": "`, with
`"` and `\` escaped), and the parser accepts exactly that grammar. -/

inductive PyValue where
  | pyNone : PyValue
  | pyBool : Bool → PyValue
  | pyInt : Int → PyValue
  | pyStr : String → PyValue
  | pyDict : List (String × PyValue) → PyValue
deriving Repr, Inhabited

mutual

/-- Structural equality of Python values (dict equality is keyed, ordered
equality — the payloads this service stores are built fresh each write, so
insertion order is determined). -/
def pyBeq : PyValue → PyValue → Bool
  | .pyNone, .pyNone => true
  | .pyBool a, .pyBool b => a == b
  | .pyInt a, .pyInt b => a == b
  | .pyStr a, .pyStr b => a == b
  | .pyDict a, .pyDict b => pyBeqFields a b
  | _, _ => false

/-- Structural equality of dict field lists. -/
def pyBeqFields : List (String × PyValue) → List (String × PyValue) → Bool
  | [], [] => true
  | (k1, v1) :: f1, (k2, v2) :: f2 => k1 == k2 && pyBeq v1 v2 && pyBeqFields f1 f2
  | _, _ => false

end

mutual

theorem pyBeq_iff : (a b : PyValue) → (pyBeq a b = true ↔ a = b)
  | .pyNone, b => by cases b <;> simp [pyBeq]
  | .pyBool x, b => by cases b <;> simp [pyBeq]
  | .pyInt x, b => by cases b <;> simp [pyBeq]
  | .pyStr x, b => by cases b <;> simp [pyBeq]
  | .pyDict f, .pyNone => by simp [pyBeq]
  | .pyDict f, .pyBool y => by simp [pyBeq]
  | .pyDict f, .pyInt y => by simp [pyBeq]
  | .pyDict f, .pyStr y => by simp [pyBeq]
  | .pyDict f, .pyDict g => by
      simp [pyBeq, pyBeqFields_iff f g]

theorem pyBeqFields_iff :
    (f g : List (String × PyValue)) → (pyBeqFields f g = true ↔ f = g)
  | [], [] => by simp [pyBeqFields]
  | [], (k, v) :: g => by simp [pyBeqFields]
  | (k, v) :: f, [] => by simp [pyBeqFields]
  | (k1, v1) :: f1, (k2, v2) :: f2 => by
      simp [pyBeqFields, pyBeq_iff v1 v2, pyBeqFields_iff f1 f2, and_assoc]

end

instance : DecidableEq PyValue := fun a b =>
  decidable_of_iff (pyBeq a b = true) (pyBeq_iff a b)

/-- The character `{`, written via its code point. -/
def lbrace : Char := Char.ofNat 123

/-- The character `}`, written via its code point. -/
def rbrace : Char := Char.ofNat 125

/-- JSON string escaping as performed by `json.dumps` on the characters this
embedding models: `"` and `\` are escaped with a backslash. -/
def escChar (c : Char) : List Char :=
  if c = '"' ∨ c = '\\' then ['\\', c] else [c]

/-- The serialised form of a JSON string, quotes included. -/
def dumpsStr (s : String) : List Char :=
  '"' :: (s.data.map escChar).flatten ++ ['"']

/-- Decimal digits, most significant first, with explicit fuel (one digit
per step) so the kernel can evaluate the serializer. -/
def natDecimalAux : Nat → Nat → List Char
  | 0, _ => []
  | fuel + 1, n =>
      if n < 10 then [Nat.digitChar n]
      else natDecimalAux fuel (n / 10) ++ [Nat.digitChar (n % 10)]

/-- Decimal digits of a natural number, most significant first
(the decimal integer notation `json.dumps` emits). -/
def natDecimal (n : Nat) : List Char := natDecimalAux (n + 1) n

theorem natDecimalAux_congr :
    ∀ n f1 f2, n < f1 → n < f2 → natDecimalAux f1 n = natDecimalAux f2 n := by
  intro n
  induction n using Nat.strong_induction_on with
  | _ n ih =>
      intro f1 f2 h1 h2
      cases f1 with
      | zero => omega
      | succ f1 =>
          cases f2 with
          | zero => omega
          | succ f2 =>
              by_cases h10 : n < 10
              · simp [natDecimalAux, h10]
              · have hdiv : n / 10 < n := Nat.div_lt_self (by omega) (by omega)
                simp only [natDecimalAux, h10, if_neg, if_false]
                rw [ih (n / 10) hdiv f1 f2 (by omega) (by omega)]

/-- The recursion equation of `natDecimal` itself. -/
theorem natDecimal_eq (n : Nat) :
    natDecimal n =
      if n < 10 then [Nat.digitChar n]
      else natDecimal (n / 10) ++ [Nat.digitChar (n % 10)] := by
  by_cases h10 : n < 10
  · simp [natDecimal, natDecimalAux, h10]
  · have hdiv : n / 10 < n := Nat.div_lt_self (by omega) (by omega)
    conv_lhs => rw [natDecimal]
    simp only [natDecimalAux, h10, if_neg, if_false]
    rw [natDecimalAux_congr (n / 10) n (n / 10 + 1) (by omega) (by omega)]
    simp [natDecimal, h10]

/-- Decimal notation of a (possibly negative) integer as emitted by
`json.dumps`. -/
def intDecimal (n : Int) : List Char :=
  if n < 0 then '-' :: natDecimal n.natAbs else natDecimal n.toNat

mutual

/-- `json.dumps` on the modelled value space, as a character list. -/
def dumpsChars : PyValue → List Char
  | .pyNone => 'n' :: 'u' :: 'l' :: 'l' :: []
  | .pyBool true => 't' :: 'r' :: 'u' :: 'e' :: []
  | .pyBool false => 'f' :: 'a' :: 'l' :: 's' :: 'e' :: []
  | .pyInt n => intDecimal n
  | .pyStr s => dumpsStr s
  | .pyDict [] => lbrace :: rbrace :: []
  | .pyDict ((k, v) :: fs) =>
      lbrace :: (dumpsStr k ++ ':' :: ' ' :: dumpsChars v ++ dumpsFieldsTail fs)
        ++ [rbrace]

/-- The `", key: value"` repetitions after a dict's first entry. -/
def dumpsFieldsTail : List (String × PyValue) → List Char
  | [] => []
  | (k, v) :: fs =>
      ',' :: ' ' :: (dumpsStr k ++ ':' :: ' ' :: dumpsChars v) ++ dumpsFieldsTail fs

end

/-- `json.dumps` as a string. -/
def dumps (v : PyValue) : String := ⟨dumpsChars v⟩

/-- Reads one expected literal character sequence, as `json.loads` does for
the keywords `null` / `true` / `false`. -/
def dropLit : List Char → List Char → Option (List Char)
  | [], cs => some cs
  | l :: ls, c :: cs => if c = l then dropLit ls cs else none
  | _ :: _, [] => none

/-- Body of a JSON string after the opening quote: returns the decoded
characters and the input remaining after the closing quote. -/
def parseStrRest : List Char → Option (List Char × List Char)
  | [] => none
  | c :: rest =>
      if c = '"' then some ([], rest)
      else if c = '\\' then
        match rest with
        | [] => none
        | d :: rest2 =>
            if d = '"' ∨ d = '\\' then
              (parseStrRest rest2).map (fun p => (d :: p.1, p.2))
            else none
      else (parseStrRest rest).map (fun p => (c :: p.1, p.2))

/-- Greedy run of decimal digits, folded onto an accumulator. -/
def parseDigits : List Char → Nat → Nat × List Char
  | c :: rest, acc =>
      if c.isDigit then parseDigits rest (acc * 10 + (c.toNat - 48))
      else (acc, c :: rest)
  | [], acc => (acc, [])

mutual

/-- Recursive-descent parser for the JSON grammar `json.dumps` emits on the
modelled value space (the model of `json.loads`); `fuel` bounds the recursion
depth and is decremented on every recursive call. -/
def parseVal : Nat → List Char → Option (PyValue × List Char)
  | 0, _ => none
  | fuel + 1, cs =>
      match cs with
      | [] => none
      | c :: rest =>
          if c = 'n' then (dropLit ['u', 'l', 'l'] rest).map (fun r => (.pyNone, r))
          else if c = 't' then (dropLit ['r', 'u', 'e'] rest).map (fun r => (.pyBool true, r))
          else if c = 'f' then (dropLit ['a', 'l', 's', 'e'] rest).map (fun r => (.pyBool false, r))
          else if c = '"' then (parseStrRest rest).map (fun p => (.pyStr ⟨p.1⟩, p.2))
          else if c = '-' then
            match rest with
            | [] => none
            | d :: _ =>
                if d.isDigit then
                  let p := parseDigits rest 0
                  some (.pyInt (-(p.1 : Int)), p.2)
                else none
          else if c.isDigit then
            let p := parseDigits (c :: rest) 0
            some (.pyInt (p.1 : Int), p.2)
          else if c = lbrace then
            match rest with
            | [] => none
            | d :: rest2 =>
                if d = rbrace then some (.pyDict [], rest2)
                else if d = '"' then
                  match parseStrRest rest2 with
                  | none => none
                  | some (k, r1) =>
                      match r1 with
                      | ':' :: ' ' :: r2 => do
                          let (v, r3) ← parseVal fuel r2
                          let (fs, r4) ← parseFields fuel r3
                          pure (.pyDict ((⟨k⟩, v) :: fs), r4)
                      | _ => none
                else none
          else none

/-- Parses the `", key: value"` repetitions after a dict's first entry, up to
and including the closing brace. -/
def parseFields : Nat → List Char → Option (List (String × PyValue) × List Char)
  | 0, _ => none
  | fuel + 1, cs =>
      match cs with
      | c :: rest =>
          if c = rbrace then some ([], rest)
          else if c = ',' then
            match rest with
            | ' ' :: '"' :: rest2 =>
                match parseStrRest rest2 with
                | none => none
                | some (k, r1) =>
                    match r1 with
                    | ':' :: ' ' :: r2 => do
                        let (v, r3) ← parseVal fuel r2
                        let (fs, r4) ← parseFields fuel r3
                        pure ((⟨k⟩, v) :: fs, r4)
                    | _ => none
            | _ => none
          else none
      | [] => none

end

/-- The model of `json.loads`: the whole input must be consumed. -/
def loads (s : String) : Option PyValue :=
  match parseVal (s.length + 1) s.data with
  | some (v, []) => some v
  | _ => none

/-- The Redis string store (`setex` / `get`); expiry is not modelled — the
claims about the cache concern reads before expiry. -/
def Cache := List (String × String)

/-- An empty cache. -/
def Cache.empty : Cache := []

/-- `setex`: store a string under a key, replacing any previous value. -/
def cacheStore (c : Cache) (k v : String) : Cache :=
  (k, v) :: (c : List (String × String)).filter (fun e => e.1 ≠ k)

/-- `get`: the raw string stored under a key. -/
def cacheRaw (c : Cache) (k : String) : Option String :=
  ((c : List (String × String)).find? (fun e => e.1 = k)).map (fun e => e.2)

/-- `cache_set` from `src/core/redis_client.py`: serialises with `json.dumps`
unless the value is already a `str`, in which case the raw string is stored. -/
def cache_set (c : Cache) (key : String) (value : PyValue) : Cache :=
  let serialized : String :=
    match value with
    | .pyStr s => s
    | v => dumps v
  cacheStore c key serialized

/-- `cache_get` from `src/core/redis_client.py`: tries `json.loads` first and
falls back to returning the raw string on a parse failure. -/
def cache_get (c : Cache) (key : String) : Option PyValue :=
  match cacheRaw c key with
  | none => none
  | some raw =>
      match loads raw with
      | some v => some v
      | none => some (.pyStr raw)

/-! ### Round-trip of the JSON embedding -/

theorem strMk_data (s : String) : String.mk s.data = s := rfl

theorem dropLit_append (ls rest : List Char) : dropLit ls (ls ++ rest) = some rest := by
  induction ls with
  | nil => rfl
  | cons l ls ih => simp [dropLit, ih]

theorem parseStrRest_nil_eq : parseStrRest [] = none := rfl

theorem parseStrRest_cons_eq (c : Char) (rest : List Char) :
    parseStrRest (c :: rest) =
      (if c = '"' then some ([], rest)
       else if c = '\\' then
         match rest with
         | [] => none
         | d :: rest2 =>
             if d = '"' ∨ d = '\\' then
               (parseStrRest rest2).map (fun p => (d :: p.1, p.2))
             else none
       else (parseStrRest rest).map (fun p => (c :: p.1, p.2))) := by
  rw [parseStrRest.eq_def]

theorem parseStrRest_dumps (cs rest : List Char) :
    parseStrRest ((cs.map escChar).flatten ++ '"' :: rest) = some (cs, rest) := by
  induction cs with
  | nil => simp [parseStrRest_cons_eq]
  | cons c cs ih =>
      by_cases h : c = '"' ∨ c = '\\'
      · have h1 : ('\\' : Char) ≠ '"' := by decide
        simp [escChar, h, parseStrRest_cons_eq, h1, ih]
      · rw [not_or] at h
        simp [escChar, h.1, h.2, parseStrRest_cons_eq, ih]

/-- The head of the remaining input is not a decimal digit (so a greedy digit
run stops there). -/
def headNonDigit : List Char → Prop
  | [] => True
  | c :: _ => c.isDigit = false

/-- The numeric value of a digit run folded onto an accumulator. -/
def digitsVal (a : Nat) (ds : List Char) : Nat :=
  ds.foldl (fun a c => a * 10 + (c.toNat - 48)) a

theorem parseDigits_append (ds : List Char) (a : Nat) (rest : List Char)
    (hd : ∀ c ∈ ds, c.isDigit = true) (hr : headNonDigit rest) :
    parseDigits (ds ++ rest) a = (digitsVal a ds, rest) := by
  induction ds generalizing a with
  | nil =>
      cases rest with
      | nil => rfl
      | cons r rs =>
          simp only [headNonDigit] at hr
          simp [parseDigits, digitsVal, hr]
  | cons d ds ih =>
      have hdd : d.isDigit = true := hd d (by simp)
      simp only [List.cons_append, parseDigits, hdd, if_true, digitsVal, List.foldl_cons]
      exact ih _ (fun c hc => hd c (by simp [hc]))

theorem natDecimal_ne_nil (n : Nat) : natDecimal n ≠ [] := by
  rw [natDecimal_eq]
  split <;> simp

theorem digitChar_isDigit {d : Nat} (h : d < 10) : (Nat.digitChar d).isDigit = true := by
  interval_cases d <;> decide

theorem digitChar_toNat {d : Nat} (h : d < 10) : (Nat.digitChar d).toNat - 48 = d := by
  interval_cases d <;> decide

theorem natDecimal_digits (n : Nat) : ∀ c ∈ natDecimal n, c.isDigit = true := by
  induction n using Nat.strong_induction_on with
  | _ n ih =>
      rw [natDecimal_eq]
      split
      · next h => intro c hc; simp at hc; subst hc; exact digitChar_isDigit h
      · next h =>
          intro c hc
          simp at hc
          rcases hc with hc | hc
          · exact ih (n / 10) (Nat.div_lt_self (by omega) (by omega)) c hc
          · subst hc; exact digitChar_isDigit (Nat.mod_lt _ (by omega))

theorem digitsVal_natDecimal (n : Nat) :
    ∀ a, digitsVal a (natDecimal n) = a * 10 ^ (natDecimal n).length + n := by
  induction n using Nat.strong_induction_on with
  | _ n ih =>
      intro a
      rw [natDecimal_eq]
      split
      · next h =>
          simp [digitsVal, digitChar_toNat h]
      · next h =>
          have hlt : n / 10 < n := Nat.div_lt_self (by omega) (by omega)
          have hmod : n % 10 < 10 := Nat.mod_lt _ (by omega)
          simp only [digitsVal, List.foldl_append, List.foldl_cons, List.foldl_nil,
            List.length_append, List.length_cons, List.length_nil]
          have hih := ih (n / 10) hlt a
          simp only [digitsVal] at hih
          rw [hih, digitChar_toNat hmod, pow_succ]
          have hdm : 10 * (n / 10) + n % 10 = n := Nat.div_add_mod n 10
          ring_nf
          omega

theorem parseDigits_natDecimal (n : Nat) (rest : List Char) (hr : headNonDigit rest) :
    parseDigits (natDecimal n ++ rest) 0 = (n, rest) := by
  rw [parseDigits_append _ _ _ (natDecimal_digits n) hr, digitsVal_natDecimal n 0]
  simp

theorem digit_ne {c : Char} (h : c.isDigit = true) {d : Char} (hd : d.isDigit = false) :
    c ≠ d := by
  intro e; subst e; rw [h] at hd; exact Bool.noConfusion hd

mutual

/-- Fuel sufficient to parse a value back. -/
def psize : PyValue → Nat
  | .pyDict fs => 2 + psizeFields fs
  | _ => 1

/-- Fuel sufficient to parse a dict tail back. -/
def psizeFields : List (String × PyValue) → Nat
  | [] => 1
  | (_, v) :: fs => 1 + psize v + psizeFields fs

end

theorem one_le_psize (v : PyValue) : 1 ≤ psize v := by
  cases v
  · simp [psize]
  · simp [psize]
  · simp [psize]
  · simp [psize]
  · simp [psize]; omega

theorem one_le_psizeFields (fs : List (String × PyValue)) : 1 ≤ psizeFields fs := by
  cases fs with
  | nil => simp [psizeFields]
  | cons f fs => cases f; simp [psizeFields]; omega

theorem headNonDigit_tail (fs : List (String × PyValue)) (rest : List Char) :
    headNonDigit (dumpsFieldsTail fs ++ rbrace :: rest) := by
  cases fs with
  | nil => simp +decide [dumpsFieldsTail, headNonDigit, rbrace]
  | cons f fs =>
      cases f
      simp +decide [dumpsFieldsTail, headNonDigit]

theorem parse_dumps_all (fuel : Nat) :
    (∀ v rest, psize v ≤ fuel → headNonDigit rest →
      parseVal fuel (dumpsChars v ++ rest) = some (v, rest)) ∧
    (∀ fs rest, psizeFields fs ≤ fuel →
      parseFields fuel (dumpsFieldsTail fs ++ rbrace :: rest) = some (fs, rest)) := by
  induction fuel using Nat.strong_induction_on with
  | _ fuel ih =>
      cases fuel with
      | zero =>
          constructor
          · intro v rest h _
            exact absurd h (by have := one_le_psize v; omega)
          · intro fs rest h
            exact absurd h (by have := one_le_psizeFields fs; omega)
      | succ m =>
          constructor
          · intro v rest hsz hr
            cases v with
            | pyNone => simp +decide [dumpsChars, parseVal, dropLit]
            | pyBool b => cases b <;> simp +decide [dumpsChars, parseVal, dropLit]
            | pyStr s =>
                simp only [dumpsChars, dumpsStr, List.cons_append, List.append_assoc,
                  List.nil_append]
                simp +decide [parseVal, parseStrRest_dumps, strMk_data]
            | pyInt n =>
                by_cases hn : n < 0
                · simp only [dumpsChars, intDecimal, if_pos hn]
                  obtain ⟨d, ds, hds⟩ := List.exists_cons_of_ne_nil (natDecimal_ne_nil n.natAbs)
                  have hdig : d.isDigit = true := natDecimal_digits n.natAbs d (by rw [hds]; simp)
                  have hpd := parseDigits_natDecimal n.natAbs rest hr
                  rw [hds] at hpd ⊢
                  simp only [List.cons_append] at hpd ⊢
                  simp +decide [parseVal, hdig, hpd]
                  simp [abs_of_neg hn]
                · simp only [dumpsChars, intDecimal, if_neg hn]
                  obtain ⟨d, ds, hds⟩ := List.exists_cons_of_ne_nil (natDecimal_ne_nil n.toNat)
                  have hdig : d.isDigit = true := natDecimal_digits n.toNat d (by rw [hds]; simp)
                  have hpd := parseDigits_natDecimal n.toNat rest hr
                  rw [hds] at hpd ⊢
                  simp only [List.cons_append] at hpd ⊢
                  have h1 : d ≠ 'n' := digit_ne hdig (by decide)
                  have h2 : d ≠ 't' := digit_ne hdig (by decide)
                  have h3 : d ≠ 'f' := digit_ne hdig (by decide)
                  have h4 : d ≠ '"' := digit_ne hdig (by decide)
                  have h5 : d ≠ '-' := digit_ne hdig (by decide)
                  simp [parseVal, h1, h2, h3, h4, h5, hdig, hpd]
                  omega
            | pyDict fs =>
                cases fs with
                | nil => simp +decide [dumpsChars, parseVal, lbrace, rbrace]
                | cons f fs =>
                    obtain ⟨k, v⟩ := f
                    have hv : psize v ≤ m := by
                      simp [psize, psizeFields] at hsz
                      have := one_le_psizeFields fs
                      omega
                    have hfs : psizeFields fs ≤ m := by
                      simp [psize, psizeFields] at hsz
                      have := one_le_psize v
                      omega
                    have h1 := (ih m (Nat.lt_succ_self m)).1 v
                      (dumpsFieldsTail fs ++ rbrace :: rest) hv (headNonDigit_tail fs rest)
                    have h2 := (ih m (Nat.lt_succ_self m)).2 fs rest hfs
                    simp only [dumpsChars, dumpsStr, List.cons_append, List.append_assoc,
                      List.nil_append]
                    simp +decide [parseVal, parseStrRest_dumps, h1, h2, strMk_data]
          · intro fs rest hsz
            cases fs with
            | nil => simp +decide [dumpsFieldsTail, parseFields, rbrace]
            | cons f fs =>
                obtain ⟨k, v⟩ := f
                have hv : psize v ≤ m := by
                  simp [psizeFields] at hsz
                  have := one_le_psizeFields fs
                  omega
                have hfs : psizeFields fs ≤ m := by
                  simp [psizeFields] at hsz
                  have := one_le_psize v
                  omega
                have h1 := (ih m (Nat.lt_succ_self m)).1 v
                  (dumpsFieldsTail fs ++ rbrace :: rest) hv (headNonDigit_tail fs rest)
                have h2 := (ih m (Nat.lt_succ_self m)).2 fs rest hfs
                simp only [dumpsFieldsTail, dumpsStr, List.cons_append, List.append_assoc,
                  List.nil_append]
                simp +decide [parseFields, parseStrRest_dumps, h1, h2, strMk_data]

mutual

theorem psize_le_len : (v : PyValue) → psize v ≤ (dumpsChars v).length + 1
  | .pyNone => by simp [psize, dumpsChars]
  | .pyBool b => by cases b <;> simp [psize, dumpsChars]
  | .pyInt n => by simp [psize]
  | .pyStr s => by simp [psize]
  | .pyDict [] => by simp [psize, psizeFields, dumpsChars]
  | .pyDict ((k, v) :: fs) => by
      have h1 := psize_le_len v
      have h2 := psizeFieldsTail_le_len fs
      simp [psize, psizeFields, dumpsChars, dumpsStr, List.length_append]
      omega

theorem psizeFieldsTail_le_len :
    (fs : List (String × PyValue)) → psizeFields fs ≤ (dumpsFieldsTail fs).length + 1
  | [] => by simp [psizeFields, dumpsFieldsTail]
  | (k, v) :: fs => by
      have h1 := psize_le_len v
      have h2 := psizeFieldsTail_le_len fs
      simp [psizeFields, dumpsFieldsTail, dumpsStr, List.length_append]
      omega

end

theorem loads_dumps (v : PyValue) : loads (dumps v) = some v := by
  have hfuel : psize v ≤ (dumpsChars v).length + 1 := psize_le_len v
  have h := (parse_dumps_all ((dumpsChars v).length + 1)).1 v [] hfuel trivial
  simp only [List.append_nil] at h
  have hdata : (dumps v).data = dumpsChars v := rfl
  have hlen : (dumps v).length = (dumpsChars v).length := rfl
  unfold loads
  rw [hdata, hlen, h]

theorem cacheRaw_store (c : Cache) (k v : String) :
    cacheRaw (cacheStore c k v) k = some v := by
  simp [cacheRaw, cacheStore, List.find?]

/-- What `cache_get` recovers immediately after `cache_set` wrote `value`:
non-strings round-trip through `json.dumps` / `json.loads`; a raw string is
re-parsed as JSON first and only falls back to itself if that fails. -/
theorem cache_get_after_set (c : Cache) (key : String) (value : PyValue) :
    cache_get (cache_set c key value) key =
      some (match value with
            | .pyStr s => (match loads s with
                           | some w => w
                           | none => .pyStr s)
            | v => v) := by
  cases value with
  | pyStr s =>
      simp only [cache_set, cache_get, cacheRaw_store]
      cases loads s <;> rfl
  | pyNone => simp only [cache_set, cache_get, cacheRaw_store, loads_dumps]
  | pyBool b => simp only [cache_set, cache_get, cacheRaw_store, loads_dumps]
  | pyInt n => simp only [cache_set, cache_get, cacheRaw_store, loads_dumps]
  | pyDict fs => simp only [cache_set, cache_get, cacheRaw_store, loads_dumps]

/-! ## The 80/20 dataset split (`_prepare_dataset_config` in
`src/tasks/training_tasks.py`)

`split_index = int(len(file_ids) * 0.8)` is a binary64 computation: the
literal `0.8` is the double `3602879701896397 / 2^52`, the list length
converts to float exactly (any dataset size is far below `2^53`), the
product is rounded to nearest-even at 53 significant bits, and `int`
truncates the nonnegative result.  The functions below model that
computation exactly over `Nat` (exponent overflow is unreachable at these
magnitudes). -/

/-- Round `a` to a multiple of `2 ^ r`, ties to even — the IEEE-754 default
rounding applied when a product needs more than 53 significand bits. -/
def rne (a r : Nat) : Nat :=
  if r = 0 then a
  else if a % 2 ^ r < 2 ^ (r - 1) then a / 2 ^ r * 2 ^ r
  else if 2 ^ (r - 1) < a % 2 ^ r then (a / 2 ^ r + 1) * 2 ^ r
  else if a / 2 ^ r % 2 = 0 then a / 2 ^ r * 2 ^ r
  else (a / 2 ^ r + 1) * 2 ^ r

/-- The scaled significand of the double `0.8 = point8Sig / 2^52`. -/
def point8Sig : Nat := 3602879701896397

/-- Bit length, with explicit fuel so the kernel can evaluate it on large
literals (the recursion stops after one step per bit). -/
def bitLenAux : Nat → Nat → Nat
  | 0, _ => 0
  | fuel + 1, n => if n = 0 then 0 else bitLenAux fuel (n / 2) + 1

/-- `n.bit_length()`: the number of bits of `n` (0 for 0). -/
def bitLen (n : Nat) : Nat := bitLenAux n n

theorem bitLenAux_le {fuel n k : Nat} (hf : n ≤ fuel) (h : n < 2 ^ k) :
    bitLenAux fuel n ≤ k := by
  induction fuel generalizing n k with
  | zero =>
      have : n = 0 := by omega
      subst this
      simp [bitLenAux]
  | succ fuel ih =>
      by_cases hz : n = 0
      · subst hz; simp [bitLenAux]
      · have hk : 1 ≤ k := by
          by_contra hc
          have : k = 0 := by omega
          subst this
          simp at h
          omega
        have hs : 2 ^ k = 2 * 2 ^ (k - 1) := by
          rw [← pow_succ']
          congr 1
          omega
        have h2 : n / 2 < 2 ^ (k - 1) := by omega
        have hf2 : n / 2 ≤ fuel := by omega
        have := ih hf2 h2
        simp [bitLenAux, hz]
        omega

theorem bitLen_le {n k : Nat} (h : n < 2 ^ k) : bitLen n ≤ k :=
  bitLenAux_le (Nat.le_refl n) h

/-- The binary64 product `n * 0.8`, scaled by `2^52` (exact value of the
correctly rounded double, times `2^52`). -/
def floatMulPoint8Scaled (n : Nat) : Nat :=
  rne (n * point8Sig) (bitLen (n * point8Sig) - 53)

/-- `int(n * 0.8)` — truncation of the rounded product (nonnegative, so this
is the floor). -/
def splitIndex (n : Nat) : Nat := floatMulPoint8Scaled n / 2 ^ 52

theorem rne_le (a r : Nat) : rne a r ≤ a + 2 ^ r / 2 := by
  unfold rne
  split
  · next h => subst h; simp
  · next hrne =>
      have hp : 0 < 2 ^ r := pow_pos (by norm_num) r
      have hdm : 2 ^ r * (a / 2 ^ r) + a % 2 ^ r = a := Nat.div_add_mod a (2 ^ r)
      have hrem : a % 2 ^ r < 2 ^ r := Nat.mod_lt a hp
      have hsplit : 2 ^ (r - 1) * 2 = 2 ^ r := by
        rw [← pow_succ]
        congr 1
        omega
      have hhalf : 2 ^ r / 2 = 2 ^ (r - 1) := by omega
      have hq1 : (a / 2 ^ r + 1) * 2 ^ r = a / 2 ^ r * 2 ^ r + 2 ^ r := by ring
      have hqc : a / 2 ^ r * 2 ^ r = 2 ^ r * (a / 2 ^ r) := by ring
      split
      · omega
      · split
        · omega
        · split
          · omega
          · omega

theorem le_rne (a r k : Nat) (h : k * 2 ^ r ≤ a) : k * 2 ^ r ≤ rne a r := by
  unfold rne
  split
  · omega
  · next hrne =>
      have hp : 0 < 2 ^ r := pow_pos (by norm_num) r
      have hk : k ≤ a / 2 ^ r := (Nat.le_div_iff_mul_le hp).mpr h
      have h1 : k * 2 ^ r ≤ a / 2 ^ r * 2 ^ r := Nat.mul_le_mul_right _ hk
      have hq1 : (a / 2 ^ r + 1) * 2 ^ r = a / 2 ^ r * 2 ^ r + 2 ^ r := by ring
      split
      · omega
      · split
        · omega
        · split
          · omega
          · omega

/-- On every dataset size a Python process can reach (far below `2 ^ 49`),
the binary64 split index `int(n * 0.8)` agrees with the exact
`⌊0.8 · n⌋ = 4 * n / 5`.  (The two first diverge near `n = 2 ^ 51`.) -/
theorem splitIndex_eq (n : Nat) (hn : n < 2 ^ 49) : splitIndex n = 4 * n / 5 := by
  unfold splitIndex floatMulPoint8Scaled point8Sig
  by_cases hz : n = 0
  · subst hz; decide
  · have hn' : n < 562949953421312 := by
      have : (2 : Nat) ^ 49 = 562949953421312 := by norm_num
      omega
    have hsz : bitLen (n * 3602879701896397) ≤ 101 := by
      apply bitLen_le
      have : (2 : Nat) ^ 101 = 2535301200456458802993406410752 := by norm_num
      omega
    set a := n * 3602879701896397 with ha
    set r := bitLen a - 53 with hr
    have hr48 : r ≤ 48 := by omega
    have hpow : 2 ^ (52 - r) * 2 ^ r = 2 ^ 52 := by
      rw [← pow_add]
      congr 1
      omega
    have h52 : (2 : Nat) ^ 52 = 4503599627370496 := by norm_num
    have hma : 4 * n / 5 * 2 ^ 52 ≤ a := by
      rw [h52, ha]
      omega
    have hlow : 4 * n / 5 * 2 ^ 52 ≤ rne a r := by
      have h := le_rne a r (4 * n / 5 * 2 ^ (52 - r))
      rw [mul_assoc, hpow] at h
      exact h hma
    have hup2 : 2 ^ r / 2 ≤ 2 ^ 47 := by
      have hle : (2 : Nat) ^ r ≤ 2 ^ 48 := Nat.pow_le_pow_right (by omega) hr48
      have h48 : (2 : Nat) ^ 48 = 281474976710656 := by norm_num
      have h47 : (2 : Nat) ^ 47 = 140737488355328 := by norm_num
      omega
    have hhi : rne a r < (4 * n / 5 + 1) * 2 ^ 52 := by
      have h1 := rne_le a r
      have h47 : (2 : Nat) ^ 47 = 140737488355328 := by norm_num
      rw [h52]
      rw [h47] at hup2
      rw [ha] at h1 ⊢
      omega
    exact Nat.div_eq_of_lt_le hlow hhi

/-! ## Datasets and `_prepare_dataset_config` -/

/-- The fields of a `Dataset` record that training reads.  `labels` is the
JSON dict `file_id → class index`, modelled as an association list in
insertion order (`None` when the column is null). -/
structure Dataset where
  id : String
  name : String
  file_ids : List String
  labels : Option (List (String × Int))
  status : String
deriving Repr, DecidableEq

/-- Python dict lookup `labels[fid]` guarded by `fid in labels`. -/
def lookupLabel (labels : List (String × Int)) (fid : String) : Option Int :=
  (labels.find? (fun e => e.1 = fid)).map (fun e => e.2)

/-- The hard-coded augmentation block `_prepare_dataset_config` returns. -/
structure Augmentation where
  enable_rotation : Bool
  enable_flip : Bool
  enable_cad_augmentation : Bool
  rotation_degrees : Int
  flip_probability : ℚ
  cad_augmentation_probability : ℚ
deriving Repr, DecidableEq

/-- The dict returned by `_prepare_dataset_config`. -/
structure DatasetConfig where
  train_files : List String
  val_files : List String
  train_labels : List (String × Int)
  val_labels : List (String × Int)
  augmentation : Augmentation
deriving Repr, DecidableEq

/-- `_prepare_dataset_config` from `src/tasks/training_tasks.py`:
`split_index = int(len(file_ids) * 0.8)`; the first `split_index` file ids
form the training split and the remainder the validation split, in stored
order; each split's labels are the stored labels restricted to the split's
files, dropping files without a label
(`{fid: labels[fid] for fid in train_files if fid in labels}`). -/
def prepareDatasetConfig (dataset : Dataset) : DatasetConfig :=
  let file_ids := dataset.file_ids
  let labels := dataset.labels.getD []
  let split_index := splitIndex file_ids.length
  let train_files := file_ids.take split_index
  let val_files := file_ids.drop split_index
  { train_files := train_files
    val_files := val_files
    train_labels :=
      train_files.filterMap (fun fid => (lookupLabel labels fid).map (fun l => (fid, l)))
    val_labels :=
      val_files.filterMap (fun fid => (lookupLabel labels fid).map (fun l => (fid, l)))
    augmentation :=
      { enable_rotation := true
        enable_flip := true
        enable_cad_augmentation := true
        rotation_degrees := 15
        flip_probability := 1 / 2
        cad_augmentation_probability := 3 / 10 } }

/-- Spec-side definition: the stored label mapping restricted to exactly one
split's files, dropping files without a label. -/
def restrictLabels (labels : List (String × Int)) (files : List String) :
    List (String × Int) :=
  files.filterMap (fun fid => (lookupLabel labels fid).map (fun l => (fid, l)))

/-! ## The training job record and its updates (`src/tasks/training_tasks.py`)

The `TrainingJob` row is modelled with the columns these functions touch;
timestamps are abstract ticks (`Nat`), float columns are exact rationals.
The database `UPDATE ... WHERE id = job_id` always finds the row here (the
single job under consideration). -/

/-- The per-epoch detail metrics dict built by `validate_epoch`
(`precision` / `recall` / `f1_score`, always all present). -/
structure DetailedMetrics where
  precision : ℚ
  «recall» : ℚ
  f1_score : ℚ
deriving Repr, DecidableEq

/-- The columns of a `TrainingJob` row that the training code reads or
writes. -/
structure JobRecord where
  id : String
  status : String
  celery_task_id : Option String
  started_at : Option Nat
  completed_at : Option Nat
  estimated_completion : Option Nat
  error_message : Option String
  model_path : Option String
  current_epoch : Nat
  total_epochs : Nat
  progress_percentage : ℚ
  training_loss : Option ℚ
  validation_loss : Option ℚ
  accuracy : Option ℚ
  precision : Option ℚ
  «recall» : Option ℚ
  f1_score : Option ℚ
  created_by : String
  updated_at : Nat
deriving Repr, DecidableEq

/-- Python truthiness of an `Optional[str]` (`if celery_task_id:` /
`if error_message:`): `None` **and the empty string** are falsy. -/
def truthyStr : Option String → Bool
  | none => false
  | some s => s ≠ ""

/-- `_update_training_job_status`: writes the new status unconditionally —
there is no state-machine validation anywhere in this function (any
current status is overwritten).  `celery_task_id` and `error_message` are
only written when truthy; `"running"` stamps `started_at` and a fixed
one-hour `estimated_completion`; the three terminal statuses stamp
`completed_at`. -/
def updateTrainingJobStatus (now : Nat) (rec : JobRecord) (status : String)
    (celery_task_id : Option String) (error_message : Option String) : JobRecord :=
  let rec1 := { rec with status := status, updated_at := now }
  let rec2 :=
    if truthyStr celery_task_id then { rec1 with celery_task_id := celery_task_id } else rec1
  let rec3 :=
    if status = "running" then
      { rec2 with started_at := some now, estimated_completion := some (now + 3600) }
    else if status = "completed" ∨ status = "failed" ∨ status = "cancelled" then
      { rec2 with completed_at := some now }
    else rec2
  if truthyStr error_message then { rec3 with error_message := error_message } else rec3

/-- A progress payload dict (`progress_data`), with one optional slot per key
the source ever puts in such a dict.  Batch-level payloads carry only
`epoch` / `batch` / `batch_progress` / `loss`; epoch-level payloads carry
`epoch` / `total_epochs` / `progress` / losses / accuracies /
`learning_rate` / `detailed_metrics`. -/
structure ProgressData where
  epoch : Option Nat
  batch : Option Nat
  batch_progress : Option ℚ
  loss : Option ℚ
  total_epochs : Option Nat
  progress : Option ℚ
  train_loss : Option ℚ
  val_loss : Option ℚ
  train_acc : Option ℚ
  val_acc : Option ℚ
  learning_rate : Option ℚ
  detailed_metrics : Option DetailedMetrics
deriving Repr, DecidableEq

/-- The empty progress payload. -/
def ProgressData.empty : ProgressData :=
  ⟨none, none, none, none, none, none, none, none, none, none, none, none⟩

/-- The database half of `_update_training_progress`: `current_epoch` and
`progress_percentage` fall back to `0` when the key is absent
(`progress_data.get("epoch", 0)` / `.get("progress", 0)`); the three
metric columns are overwritten with whatever `.get` returns — `None` when
the key is absent; detail metrics are only written when the
`detailed_metrics` key is present. -/
def applyTrainingProgress (now : Nat) (rec : JobRecord) (d : ProgressData) : JobRecord :=
  let rec1 := { rec with
    current_epoch := d.epoch.getD 0
    progress_percentage := d.progress.getD 0
    training_loss := d.train_loss
    validation_loss := d.val_loss
    accuracy := d.val_acc
    updated_at := now }
  match d.detailed_metrics with
  | some m =>
      { rec1 with precision := some m.precision, «recall» := some m.recall, f1_score := some m.f1_score }
  | none => rec1

/-- The Progress Channel key for a job
(`f"training_progress:{training_job_id}"`). -/
def progressKey (training_job_id : String) : String :=
  "training_progress:" ++ training_job_id

/-- `_update_training_job_completion`: terminal success write. -/
structure TrainResults where
  model_path : String
  final_train_loss : ℚ
  final_val_loss : ℚ
  final_val_acc : ℚ
  detailed_metrics : DetailedMetrics
deriving Repr, DecidableEq

/-- `_update_training_job_completion` from `src/tasks/training_tasks.py`. -/
def updateTrainingJobCompletion (now : Nat) (rec : JobRecord) (results : TrainResults) :
    JobRecord :=
  { rec with
    status := "completed"
    completed_at := some now
    model_path := some results.model_path
    training_loss := some results.final_train_loss
    validation_loss := some results.final_val_loss
    accuracy := some results.final_val_acc
    precision := some results.detailed_metrics.precision
    «recall» := some results.detailed_metrics.recall
    f1_score := some results.detailed_metrics.f1_score
    progress_percentage := 100
    updated_at := now }

/-- An `AIModel` row as created by `ModelService.create_model` on the task's
success path. -/
structure AIModelRec where
  model_type : String
  training_job_id : String
  training_dataset_id : String
  model_path : String
  created_by : String
deriving Repr, DecidableEq

/-- The mutable state a task execution touches: the job row, the `AIModel`
table, the ordered trace of statuses stored by `_update_training_job_status`,
and the Progress Channel. -/
structure TaskState where
  job : JobRecord
  models : List AIModelRec
  statusWrites : List String
  cache : Cache

/-- The dict a task returns. -/
structure TaskResult where
  success : Bool
  error : Option String
deriving Repr, DecidableEq

/-- `train_cad_model_task` (the body of `_train_model`):

1. unconditionally stores status `"running"` — *before* the dataset is even
   fetched or checked;
2. fails with `ValueError f"Dataset {id} not found"` / `f"Dataset {id} is
   not ready for training"` when the dataset is absent or not `"ready"`;
3. otherwise builds the split config, runs the trainer (a black-box
   argument here: `runTraining`), and on success creates exactly one
   `AIModel` row and stores the completion update;
4. any exception lands in the `except` block, which stores status
   `"failed"` with `error_message = str(e)` (dropped when the message is
   empty, by `if error_message:` truthiness) and creates nothing.

The in-training progress callbacks run as separate asyncio tasks and are
modelled separately (`applyTrainingProgress` / `cache_set`). -/
def trainCadModelTask (now : Nat) (task_id : String) (st : TaskState)
    (dataset : Option Dataset) (dataset_id : String)
    (model_config_model_type : Option String) (user_id : String)
    (runTraining : DatasetConfig → Except String TrainResults) :
    TaskState × TaskResult :=
  let st1 : TaskState :=
    { st with job := updateTrainingJobStatus now st.job "running" (some task_id) none
              statusWrites := st.statusWrites ++ ["running"] }
  let fail : TaskState → String → TaskState × TaskResult := fun st' msg =>
    ({ st' with job := updateTrainingJobStatus now st'.job "failed" (some task_id) (some msg)
                statusWrites := st'.statusWrites ++ ["failed"] },
     { success := false, error := some msg })
  match dataset with
  | none => fail st1 ("Dataset " ++ dataset_id ++ " not found")
  | some ds =>
      if ds.status ≠ "ready" then
        fail st1 ("Dataset " ++ dataset_id ++ " is not ready for training")
      else
        match runTraining (prepareDatasetConfig ds) with
        | .error e => fail st1 e
        | .ok results =>
            let model : AIModelRec :=
              { model_type := model_config_model_type.getD "cnn"
                training_job_id := st.job.id
                training_dataset_id := dataset_id
                model_path := results.model_path
                created_by := user_id }
            let st2 : TaskState :=
              { st1 with
                models := st1.models ++ [model]
                job := updateTrainingJobCompletion now st1.job results
                statusWrites := st1.statusWrites ++ ["completed"] }
            (st2, { success := true, error := none })

/-- `cancel_training_job_task`: unconditionally stores status `"cancelled"`
(there is no check of the current status — no `InvalidStateTransitionError`
exists anywhere in the code) and drops a `{"status": "cancelled"}` payload
in the Progress Channel.  It reports success whatever the previous status
was. -/
def cancelTrainingJobTask (now : Nat) (st : TaskState) : TaskState × TaskResult :=
  ({ st with
      job := updateTrainingJobStatus now st.job "cancelled" none none
      statusWrites := st.statusWrites ++ ["cancelled"]
      cache := cache_set st.cache (progressKey st.job.id)
        (.pyDict [("status", .pyStr "cancelled")]) },
   { success := true, error := none })

/-- An HTTP outcome: a value or an `HTTPException(status_code, detail)`. -/
inductive HTTPResult (α : Type) where
  | ok (value : α)
  | httpError (status_code : Nat) (detail : String)
deriving Repr, DecidableEq

/-- `POST /training/jobs/{job_id}/cancel` from `src/api/routes/training.py`:
404 when the job is missing, 403 for a foreign job, 400
(`"Cannot cancel job with status: ..."`) when the status is not
`queued`/`running`; only otherwise is `cancel_training_job_task`
dispatched (the returned boolean).  The endpoint itself never writes the
job record. -/
def cancelTrainingJobEndpoint (job : Option JobRecord) (current_user_id : String) :
    HTTPResult Unit × Bool :=
  match job with
  | none => (.httpError 404 "Training job not found", false)
  | some j =>
      if j.created_by ≠ current_user_id then (.httpError 403 "Access denied", false)
      else if j.status ∉ (["queued", "running"] : List String) then
        (.httpError 400 ("Cannot cancel job with status: " ++ j.status), false)
      else (.ok (), true)

/-! ## `CADModelTrainer` (`src/ml/training/trainer.py`)

The torch numerics (forward passes, losses, optimizer and scheduler state)
are a black box supplied by a `TorchOracle`; the trainer's control flow —
batching, progress notifications, best-model tracking, early stopping,
restore — is embedded faithfully.  Losses are exact rationals.

The crucial aliasing fact: `create_cad_model` allocates one parameter
storage which `optimizer.step()` mutates **in place**; `model.state_dict()`
returns tensors aliasing that storage, and `.copy()` on the returned dict is
a *shallow* `dict.copy()` — it copies tensor references, not values.  A
state dict is therefore modelled as a reference into the live storage, and
`load_state_dict` reads values through that reference at call time. -/

/-- `training_config`: the dict as read by `CADModelTrainer.__init__` via
`.get(key, default)` (an absent key is `none`).  The float defaults `0.001`
and `1e-4` are carried as the rationals they denote — they are opaque
hyperparameters here, never arithmetic operands. -/
structure TrainingConfigDict where
  epochs : Option Nat
  batch_size : Option Nat
  learning_rate : Option ℚ
  weight_decay : Option ℚ
  patience : Option Nat
deriving Repr, DecidableEq

/-- The config dict with no keys set. -/
def TrainingConfigDict.empty : TrainingConfigDict := ⟨none, none, none, none, none⟩

/-- The five hyperparameters `CADModelTrainer.__init__` extracts, with the
source defaults — note `epochs` defaults to **100** in the trainer
(`training_config.get("epochs", 100)`). -/
structure TrainerParams where
  epochs : Nat
  batch_size : Nat
  learning_rate : ℚ
  weight_decay : ℚ
  patience : Nat
deriving Repr, DecidableEq

/-- `CADModelTrainer.__init__`, lines 41–45 of `trainer.py`. -/
def trainerInit (training_config : TrainingConfigDict) : TrainerParams :=
  { epochs := training_config.epochs.getD 100
    batch_size := training_config.batch_size.getD 32
    learning_rate := training_config.learning_rate.getD (1 / 1000)
    weight_decay := training_config.weight_decay.getD (1 / 10000)
    patience := training_config.patience.getD 10 }

/-- The server-side default merge in `create_training_job`
(`src/api/routes/training.py`): `{"epochs": 50, "batch_size": 32, ...,
**job_data.training_config}` — defaults fill missing keys, the caller's
values win.  Here the route's `epochs` default is 50. -/
def routeTrainingConfig (user : TrainingConfigDict) : TrainingConfigDict :=
  { epochs := some (user.epochs.getD 50)
    batch_size := some (user.batch_size.getD 32)
    learning_rate := some (user.learning_rate.getD (1 / 1000))
    weight_decay := some (user.weight_decay.getD (1 / 10000))
    patience := some (user.patience.getD 10) }

/-- `CADDataset.__init__`: `valid_files` keeps only the files that have a
label; the dataset length is the number of valid files. -/
def validFiles (file_ids : List String) (labels : List (String × Int)) : List String :=
  file_ids.filter (fun fid => (lookupLabel labels fid).isSome)

/-- `len(DataLoader)` with the default `drop_last=False`:
`ceil(dataset_len / batch_size)` — the last batch may be smaller. -/
def numBatches (dataset_len batch_size : Nat) : Nat :=
  (dataset_len + batch_size - 1) / batch_size

/-- A state dict: tensor references into the model's single parameter
storage (`dict.copy()` duplicates the reference, never the values). -/
inductive StateDictRef where
  | live : StateDictRef
deriving Repr, DecidableEq

/-- `load_state_dict` semantics: read the referenced values against the
*current* storage. -/
def derefStateDict {P : Type} (param : P) : StateDictRef → P
  | .live => param

/-- The numeric outcomes of the black-box torch computation: the parameter
storage value after the optimizer step of (epoch, batch), per-batch losses,
and per-epoch validation statistics and observed learning rate. -/
structure TorchOracle (P : Type) where
  paramAfterStep : Nat → Nat → P → P
  batchLoss : Nat → Nat → ℚ
  trainAcc : Nat → ℚ
  valLoss : Nat → ℚ
  valAcc : Nat → ℚ
  valPrecision : Nat → ℚ
  valRecall : Nat → ℚ
  valF1 : Nat → ℚ
  lrAfterEpoch : Nat → ℚ
  finalValLoss : ℚ
  finalValAcc : ℚ
  finalValMetrics : DetailedMetrics

/-- A progress notification pushed through the trainer's
`progress_callback`. -/
inductive Note where
  | batchNote (epoch batch : Nat) (batch_progress loss : ℚ)
  | epochNote (epoch total_epochs : Nat)
      (progress train_loss val_loss train_acc val_acc learning_rate : ℚ)
      (detailed : DetailedMetrics)
deriving Repr, DecidableEq

/-- The `epoch` key carried by every notification payload. -/
def Note.epochOf : Note → Nat
  | .batchNote e _ _ _ => e
  | .epochNote e _ _ _ _ _ _ _ _ => e

/-- The payload dict of a notification — exactly the keys the source puts in
each dict (`train_epoch` lines 181–186; `train` lines 325–335).  A
batch-level payload has **no** `progress` key. -/
def Note.toProgressData : Note → ProgressData
  | .batchNote e b bp l =>
      { ProgressData.empty with
          epoch := some e, batch := some b, batch_progress := some bp, loss := some l }
  | .epochNote e te p tl vl ta va lr dm =>
      { ProgressData.empty with
          epoch := some e, total_epochs := some te, progress := some p,
          train_loss := some tl, val_loss := some vl, train_acc := some ta,
          val_acc := some va, learning_rate := some lr, detailed_metrics := some dm }

/-- One optimizer step plus bookkeeping of `train_epoch`'s batch loop: the
parameter storage is mutated, the batch loss accumulated, and every tenth
batch (`batch_idx % 10 == 0`) a batch notification with the intra-epoch
percentage `batch_idx / len(train_loader) * 100` is emitted. -/
def batchStep {P : Type} (oracle : TorchOracle P) (epoch nb : Nat)
    (acc : P × ℚ × List Note) (b : Nat) : P × ℚ × List Note :=
  let param := oracle.paramAfterStep epoch b acc.1
  let loss := oracle.batchLoss epoch b
  let notes :=
    if b % 10 = 0 then
      acc.2.2 ++ [Note.batchNote epoch b ((b : ℚ) / (nb : ℚ) * 100) loss]
    else acc.2.2
  (param, acc.2.1 + loss, notes)

/-- `train_epoch`: run the batches, then average —
`avg_loss = total_loss / len(train_loader)` raises
`ZeroDivisionError: float division by zero` when the loader is empty. -/
def trainEpochRun {P : Type} (oracle : TorchOracle P) (epoch nb : Nat) (param : P) :
    Except String (P × ℚ × List Note) :=
  let r := (List.range nb).foldl (batchStep oracle epoch nb) (param, 0, [])
  if nb = 0 then Except.error "float division by zero"
  else Except.ok (r.1, r.2.1 / (nb : ℚ), r.2.2)

/-- The state `CADModelTrainer.train` threads through the epoch loop. -/
structure TrainerLoopState (P : Type) where
  param : P
  best_val_loss : Option ℚ
  best_model_state : Option StateDictRef
  early_stopping_counter : Nat
  current_epoch : Nat
  history_train_loss : List ℚ
  history_val_loss : List ℚ

/-- The loop state after `__init__`. -/
def initLoopState {P : Type} (param0 : P) : TrainerLoopState P :=
  { param := param0
    best_val_loss := none
    best_model_state := none
    early_stopping_counter := 0
    current_epoch := 0
    history_train_loss := []
    history_val_loss := [] }

/-- The epoch loop of `CADModelTrainer.train` (lines 289–347): train, then
validate; `is_best = val_loss < best_val_loss` (strictly; `best_val_loss`
starts at `inf`, modelled `none`); on improvement snapshot
`state_dict().copy()` — the aliasing reference — and reset the counter,
otherwise increment it; emit the epoch notification with cumulative
progress `(epoch + 1) / epochs * 100`; break once the counter reaches
`patience`.  Also returns the emitted notifications and the ghost trace of
the parameter value at the end of each epoch. -/
def trainLoopGo {P : Type} (oracle : TorchOracle P) (params : TrainerParams) (nb : Nat) :
    Nat → Nat → TrainerLoopState P → List Note → List P →
    Except String (TrainerLoopState P × List Note × List P)
  | _, 0, st, notes, trace => Except.ok (st, notes, trace)
  | epoch, remaining + 1, st, notes, trace =>
      match trainEpochRun oracle epoch nb st.param with
      | .error e => .error e
      | .ok (param1, train_loss, batchNotes) =>
          let val_loss := oracle.valLoss epoch
          let current_lr := oracle.lrAfterEpoch epoch
          let is_best :=
            match st.best_val_loss with
            | none => true
            | some b => val_loss < b
          let st1 : TrainerLoopState P :=
            { param := param1
              best_val_loss := if is_best then some val_loss else st.best_val_loss
              best_model_state :=
                if is_best then some StateDictRef.live else st.best_model_state
              early_stopping_counter :=
                if is_best then 0 else st.early_stopping_counter + 1
              current_epoch := epoch
              history_train_loss := st.history_train_loss ++ [train_loss]
              history_val_loss := st.history_val_loss ++ [val_loss] }
          let eNote := Note.epochNote epoch params.epochs
            (((epoch : ℚ) + 1) / (params.epochs : ℚ) * 100)
            train_loss val_loss (oracle.trainAcc epoch) (oracle.valAcc epoch) current_lr
            ⟨oracle.valPrecision epoch, oracle.valRecall epoch, oracle.valF1 epoch⟩
          let notes1 := notes ++ batchNotes ++ [eNote]
          let trace1 := trace ++ [param1]
          if params.patience ≤ st1.early_stopping_counter then
            Except.ok (st1, notes1, trace1)
          else
            trainLoopGo oracle params nb (epoch + 1) remaining st1 notes1 trace1

/-- The outcome of a full `CADModelTrainer.train` call. -/
structure TrainRunOutcome (P : Type) where
  finalState : TrainerLoopState P
  notes : List Note
  stoppedEpoch : Nat
  paramTrace : List P

/-- `CADModelTrainer.train`: prepare the loaders (`CADDataset` filters
unlabeled files; no validation of any kind is performed on the way), run
the epoch loop, then `if self.best_model_state is not None:
self.model.load_state_dict(self.best_model_state)` — reading the snapshot's
tensor values against the *current* storage. -/
def trainRun {P : Type} (oracle : TorchOracle P) (training_config : TrainingConfigDict)
    (cfg : DatasetConfig) (param0 : P) : Except String (TrainRunOutcome P) :=
  let params := trainerInit training_config
  let nTrain := (validFiles cfg.train_files cfg.train_labels).length
  let nb := numBatches nTrain params.batch_size
  match trainLoopGo oracle params nb 0 params.epochs (initLoopState param0) [] [] with
  | .error e => .error e
  | .ok (st, notes, trace) =>
      let restored :=
        match st.best_model_state with
        | some sd => derefStateDict st.param sd
        | none => st.param
      Except.ok
        { finalState := { st with param := restored }
          notes := notes
          stoppedEpoch := st.current_epoch
          paramTrace := trace }

/-- What the spec believed the snapshot to be: the parameter *value* at the
end of the best epoch (the deep copy the shallow `.copy()` fails to take).
`none` when no epoch ran. -/
def bestEpochParamValue {P : Type} (outcome : TrainRunOutcome P) : Option P :=
  match outcome.finalState.best_val_loss, outcome.paramTrace with
  | _, [] => none
  | _, _ =>
      (outcome.finalState.history_val_loss.zip outcome.paramTrace).foldl
        (fun best p => match best with
          | none => some p
          | some b => if p.1 < b.1 then some p else some b) none
      |>.map (fun p => p.2)

/-- A freshly created job (status `"queued"`), as `create_training_job`
inserts it. -/
def exampleQueuedJob : JobRecord :=
  { id := "job-1"
    status := "queued"
    celery_task_id := none
    started_at := none
    completed_at := none
    estimated_completion := none
    error_message := none
    model_path := none
    current_epoch := 0
    total_epochs := 3
    progress_percentage := 0
    training_loss := none
    validation_loss := none
    accuracy := none
    precision := none
    «recall» := none
    f1_score := none
    created_by := "user-1"
    updated_at := 0 }

/-- A job that finished successfully (terminal status `"completed"`). -/
def exampleCompletedJob : JobRecord :=
  { exampleQueuedJob with
      status := "completed"
      celery_task_id := some "task-0"
      started_at := some 10
      completed_at := some 50
      estimated_completion := some 3610
      model_path := some "m/final_model.pth"
      current_epoch := 2
      progress_percentage := 100
      training_loss := some 1
      validation_loss := some 1
      accuracy := some (9 / 10)
      updated_at := 50 }

/-- Task state holding the queued job, no models, empty traces. -/
def stQueued : TaskState :=
  { job := exampleQueuedJob, models := [], statusWrites := [], cache := Cache.empty }

/-- Task state holding the completed job. -/
def stCompleted : TaskState :=
  { job := exampleCompletedJob, models := [], statusWrites := [], cache := Cache.empty }

/-- A dataset still being processed (not `"ready"`). -/
def exampleNotReadyDataset : Dataset :=
  { id := "ds-1"
    name := "drawings"
    file_ids := ["f1", "f2", "f3", "f4", "f5"]
    labels := some [("f1", 0), ("f2", 1), ("f3", 0), ("f4", 1), ("f5", 0)]
    status := "processing" }

/-- The same dataset, ready for training. -/
def exampleReadyDataset : Dataset :=
  { exampleNotReadyDataset with status := "ready" }

/-! ## Claim theorems -/

/-- **C9, counterexample.**  The claim says a `training_config` without the
key `"epochs"` makes the trainer run 50 epochs; `CADModelTrainer.__init__`
actually defaults `epochs` to 100 (`training_config.get("epochs", 100)`). -/
theorem trainer_epochs_default_is_100 :
    (trainerInit TrainingConfigDict.empty).epochs = 100 ∧ (100 : Nat) ≠ 50 := by
  decide

/-- **C9, amended.**  The trainer's own defaults are `epochs = 100`,
`batch_size = 32`, `learning_rate = 0.001`, `weight_decay = 1e-4`,
`patience = 10`; the 50-epoch default lives in the HTTP route, which merges
`{"epochs": 50, ...}` under the caller's `training_config` before
dispatching, so API-created jobs do default to 50. -/
theorem trainer_defaults_and_route_merge :
    trainerInit TrainingConfigDict.empty =
      { epochs := 100, batch_size := 32, learning_rate := 1 / 1000,
        weight_decay := 1 / 10000, patience := 10 } ∧
    (routeTrainingConfig TrainingConfigDict.empty).epochs = some 50 ∧
    (trainerInit (routeTrainingConfig TrainingConfigDict.empty)).epochs = 50 :=
  ⟨rfl, rfl, rfl⟩

/-- **C10, counterexample.**  The string `"5"` is stored raw by `cache_set`
(values that are already `str` are not serialised) but `cache_get` tries
`json.loads` first, so the read returns the *integer* 5: the round-trip
identity fails for strings that parse as JSON. -/
theorem cache_roundtrip_fails_on_json_string :
    cache_get (cache_set Cache.empty "k" (.pyStr "5")) "k" = some (.pyInt 5) ∧
    PyValue.pyInt 5 ≠ PyValue.pyStr "5" := by
  decide

/-- **C10, amended.**  Reading immediately after `cache_set key v` (before
expiry, no intervening write) returns `v` for every non-string value —
`json.loads ∘ json.dumps` is the identity on the modelled value space — and
for every string the JSON parser rejects; a string that parses as JSON is
returned as its decoded value instead. -/
theorem cache_get_set_roundtrip (c : Cache) (key : String) (v : PyValue) :
    cache_get (cache_set c key v) key =
      some (match v with
            | .pyStr s => (match loads s with | some w => w | none => .pyStr s)
            | w => w) :=
  cache_get_after_set c key v

/-- `_update_training_job_status` writes whatever status it is handed — no
branch of the function inspects the record's current status. -/
theorem updateStatus_sets_status (now : Nat) (rec : JobRecord) (s : String)
    (tid em : Option String) :
    (updateTrainingJobStatus now rec s tid em).status = s := by
  simp only [updateTrainingJobStatus]
  repeat' split
  all_goals rfl

/-- The `error_message` column after `_update_training_job_status`: written
only when the message is truthy (non-`None`, non-empty). -/
theorem updateStatus_error_message (now : Nat) (rec : JobRecord) (s : String)
    (tid em : Option String) :
    (updateTrainingJobStatus now rec s tid em).error_message =
      (if truthyStr em then em else rec.error_message) := by
  simp only [updateTrainingJobStatus]
  repeat' split
  all_goals rfl

/-- **C1, counterexample.**  `cancel_training_job_task` on a job whose
status is the terminal `"completed"`: the claim demands an
`InvalidStateTransitionError` and an unchanged record, but the task
overwrites the status with `"cancelled"`, mutates the record and reports
success — no `InvalidStateTransitionError` exists anywhere in the code. -/
theorem cancel_of_completed_job_mutates_and_succeeds :
    ((cancelTrainingJobTask 60 stCompleted).1.job.status = "cancelled") ∧
    ((cancelTrainingJobTask 60 stCompleted).2 =
      { success := true, error := none }) ∧
    (cancelTrainingJobTask 60 stCompleted).1.job ≠ exampleCompletedJob := by
  decide

/-- **C1, amended.**  The only transition validation in the code sits in the
HTTP cancel endpoint: cancelling a job whose status is outside
`{"queued", "running"}` through `POST /jobs/{id}/cancel` fails with HTTP
400 (`"Cannot cancel job with status: ..."`) and dispatches no cancel task,
so the record is untouched on that path.  The task-level
`_update_training_job_status` itself applies any requested status
unconditionally. -/
theorem cancel_endpoint_rejects_terminal (j : JobRecord) (uid : String)
    (howner : j.created_by = uid)
    (hterm : j.status ∉ (["queued", "running"] : List String)) :
    cancelTrainingJobEndpoint (some j) uid =
      (.httpError 400 ("Cannot cancel job with status: " ++ j.status), false) ∧
    ∀ (now : Nat) (rec : JobRecord) (s : String) (tid em : Option String),
      (updateTrainingJobStatus now rec s tid em).status = s := by
  constructor
  · simp [cancelTrainingJobEndpoint, howner, hterm]
  · exact updateStatus_sets_status

/-- **C1, amended — witness** at the completed job. -/
theorem cancel_endpoint_rejects_terminal_witness :
    exampleCompletedJob.created_by = "user-1" ∧
    exampleCompletedJob.status ∉ (["queued", "running"] : List String) ∧
    (cancelTrainingJobEndpoint (some exampleCompletedJob) "user-1" =
      (.httpError 400 "Cannot cancel job with status: completed", false) ∧
     ∀ (now : Nat) (rec : JobRecord) (s : String) (tid em : Option String),
       (updateTrainingJobStatus now rec s tid em).status = s) :=
  ⟨by decide, by decide,
   cancel_endpoint_rejects_terminal exampleCompletedJob "user-1" (by decide) (by decide)⟩

theorem dataset_msg_ne_empty (dsid suffix : String) :
    ("Dataset " ++ dsid ++ suffix) ≠ "" := by
  intro h
  have hlen := congrArg String.length h
  have h8 : ("Dataset " : String).length = 8 := rfl
  simp [String.length_append, h8] at hlen

/-- **C2, counterexample.**  Running the training task against a dataset
whose status is `"processing"`: the claim says the job transitions directly
`queued → failed` and `"running"` is never stored; the task in fact stores
`"running"` *first* (before the dataset is even fetched) and only then
fails — the stored status trace is `["running", "failed"]`. -/
theorem not_ready_dataset_run_stores_running :
    ((trainCadModelTask 5 "task-1" stQueued (some exampleNotReadyDataset) "ds-1"
        none "user-1" (fun _ => Except.error "unused")).1.statusWrites =
      ["running", "failed"]) ∧
    ("running" ∈ (trainCadModelTask 5 "task-1" stQueued (some exampleNotReadyDataset)
        "ds-1" none "user-1" (fun _ => Except.error "unused")).1.statusWrites) := by
  decide

/-- **C2, amended.**  A run whose dataset is missing, or exists but is not
`"ready"`, does end with status `"failed"` and the corresponding
`ValueError` message (`"Dataset {id} not found"` when missing,
`"Dataset {id} is not ready for training"` when not ready), with no
`AIModel` created — but it passes through a *stored* `"running"` state
first: the task writes `"running"` before fetching or checking the
dataset, so the stored status sequence is `running, failed`, not
`queued → failed` directly. -/
theorem unavailable_dataset_run_fails_after_running (now : Nat) (tid : String)
    (st : TaskState) (dsq : Option Dataset) (dsid : String) (mt : Option String)
    (uid : String) (f : DatasetConfig → Except String TrainResults)
    (h : dsq = none ∨ ∃ ds, dsq = some ds ∧ ds.status ≠ "ready") :
    ((trainCadModelTask now tid st dsq dsid mt uid f).1.statusWrites =
       st.statusWrites ++ ["running", "failed"]) ∧
    ((trainCadModelTask now tid st dsq dsid mt uid f).1.job.status = "failed") ∧
    ((trainCadModelTask now tid st dsq dsid mt uid f).1.models = st.models) ∧
    ((trainCadModelTask now tid st dsq dsid mt uid f).2.success = false) ∧
    ((trainCadModelTask now tid st dsq dsid mt uid f).1.job.error_message =
       some (match dsq with
             | none => "Dataset " ++ dsid ++ " not found"
             | some _ => "Dataset " ++ dsid ++ " is not ready for training")) := by
  rcases h with hnone | ⟨ds, hds, hst⟩
  · subst hnone
    have hmsg := dataset_msg_ne_empty dsid " not found"
    simp [trainCadModelTask, updateStatus_sets_status, updateStatus_error_message,
      truthyStr, hmsg]
  · subst hds
    have hmsg := dataset_msg_ne_empty dsid " is not ready for training"
    simp [trainCadModelTask, hst, updateStatus_sets_status,
      updateStatus_error_message, truthyStr, hmsg]

/-- **C2, amended — witness**: once at a missing dataset, once at the
processing dataset. -/
theorem unavailable_dataset_run_fails_after_running_witness :
    ((trainCadModelTask 5 "task-1" stQueued none "ds-1" none "user-1"
        (fun _ => Except.error "unused")).1.job.error_message =
      some "Dataset ds-1 not found") ∧
    ((trainCadModelTask 5 "task-1" stQueued (some exampleNotReadyDataset) "ds-1"
        none "user-1" (fun _ => Except.error "unused")).1.statusWrites =
      stQueued.statusWrites ++ ["running", "failed"]) ∧
    ((trainCadModelTask 5 "task-1" stQueued (some exampleNotReadyDataset) "ds-1"
        none "user-1" (fun _ => Except.error "unused")).1.job.error_message =
      some "Dataset ds-1 is not ready for training") :=
  ⟨(unavailable_dataset_run_fails_after_running 5 "task-1" stQueued none "ds-1"
      none "user-1" (fun _ => Except.error "unused") (Or.inl rfl)).2.2.2.2,
   (unavailable_dataset_run_fails_after_running 5 "task-1" stQueued
      (some exampleNotReadyDataset) "ds-1" none "user-1"
      (fun _ => Except.error "unused")
      (Or.inr ⟨exampleNotReadyDataset, rfl, by decide⟩)).1,
   (unavailable_dataset_run_fails_after_running 5 "task-1" stQueued
      (some exampleNotReadyDataset) "ds-1" none "user-1"
      (fun _ => Except.error "unused")
      (Or.inr ⟨exampleNotReadyDataset, rfl, by decide⟩)).2.2.2.2⟩

/-- **C3, counterexample.**  An exception whose `str` is empty (e.g. a bare
`ValueError()`) raised during training: the job is marked `"failed"` but
`error_message` stays *null*, because `_update_training_job_status` guards
the write with Python truthiness (`if error_message:`), which drops the
empty string — contradicting the claim's "non-null error_message equal to
the stringified exception" for every exception. -/
theorem failed_job_with_empty_message_has_null_error :
    ((trainCadModelTask 5 "task-1" stQueued (some exampleReadyDataset) "ds-1"
        none "user-1" (fun _ => Except.error "")).1.job.status = "failed") ∧
    ((trainCadModelTask 5 "task-1" stQueued (some exampleReadyDataset) "ds-1"
        none "user-1" (fun _ => Except.error "")).1.job.error_message = none) ∧
    ((trainCadModelTask 5 "task-1" stQueued (some exampleReadyDataset) "ds-1"
        none "user-1" (fun _ => Except.error "")).1.models = []) := by
  decide

/-- **C3, amended.**  On any exception during preparation or training the
job ends `"failed"`, no `AIModel` row is created, and `error_message`
equals the stringified exception *whenever that string is non-empty* (an
empty exception message is dropped by the `if error_message:` truthiness
check, leaving the previous value — null for a fresh job).  `AIModel`
creation happens only on the success path, exactly once, referencing the
job. -/
theorem failed_run_no_model_and_message (now : Nat) (tid : String)
    (st : TaskState) (ds : Option Dataset) (dsid : String) (mt : Option String)
    (uid : String) (f : DatasetConfig → Except String TrainResults) :
    (((trainCadModelTask now tid st ds dsid mt uid f).2.success = false) →
       ((trainCadModelTask now tid st ds dsid mt uid f).1.job.status = "failed" ∧
        (trainCadModelTask now tid st ds dsid mt uid f).1.models = st.models ∧
        ∀ e, (trainCadModelTask now tid st ds dsid mt uid f).2.error = some e →
          e ≠ "" →
          (trainCadModelTask now tid st ds dsid mt uid f).1.job.error_message =
            some e)) ∧
    (((trainCadModelTask now tid st ds dsid mt uid f).2.success = true) →
       ((trainCadModelTask now tid st ds dsid mt uid f).1.job.status = "completed" ∧
        ∃ m : AIModelRec,
          (trainCadModelTask now tid st ds dsid mt uid f).1.models =
            st.models ++ [m] ∧
          m.training_job_id = st.job.id)) := by
  rcases ds with _ | ds
  · constructor
    · intro _
      refine ⟨?_, ?_, ?_⟩
      · simp [trainCadModelTask, updateStatus_sets_status]
      · simp [trainCadModelTask]
      · intro e he hne
        simp only [trainCadModelTask] at he
        simp at he
        subst he
        simp [trainCadModelTask, updateStatus_error_message, truthyStr, hne]
    · intro hs
      simp [trainCadModelTask] at hs
  · by_cases hst : ds.status = "ready"
    · rcases hf : f (prepareDatasetConfig ds) with e | res
      · constructor
        · intro _
          refine ⟨?_, ?_, ?_⟩
          · simp [trainCadModelTask, hst, hf, updateStatus_sets_status]
          · simp [trainCadModelTask, hst, hf]
          · intro e' he' hne
            simp only [trainCadModelTask, hst] at he'
            simp [hf] at he'
            subst he'
            simp [trainCadModelTask, hst, hf, updateStatus_error_message,
              truthyStr, hne]
        · intro hs
          simp [trainCadModelTask, hst, hf] at hs
      · constructor
        · intro hs
          simp [trainCadModelTask, hst, hf] at hs
        · intro _
          refine ⟨?_, ?_⟩
          · simp [trainCadModelTask, hst, hf, updateTrainingJobCompletion]
          · refine ⟨{ model_type := mt.getD "cnn", training_job_id := st.job.id,
                      training_dataset_id := dsid, model_path := res.model_path,
                      created_by := uid }, ?_, rfl⟩
            simp [trainCadModelTask, hst, hf]
    · constructor
      · intro _
        refine ⟨?_, ?_, ?_⟩
        · simp [trainCadModelTask, hst, updateStatus_sets_status]
        · simp [trainCadModelTask, hst]
        · intro e he hne
          simp only [trainCadModelTask] at he
          simp [hst] at he
          subst he
          simp [trainCadModelTask, hst, updateStatus_error_message, truthyStr, hne]
      · intro hs
        simp [trainCadModelTask, hst] at hs

/-- **C3, amended — witness** at a trainer exception with message
`"boom"`. -/
theorem failed_run_no_model_and_message_witness :
    (trainCadModelTask 5 "task-1" stQueued (some exampleReadyDataset) "ds-1" none
      "user-1" (fun _ => Except.error "boom")).1.job.error_message = some "boom" :=
  ((failed_run_no_model_and_message 5 "task-1" stQueued (some exampleReadyDataset)
      "ds-1" none "user-1" (fun _ => Except.error "boom")).1 (by decide)).2.2 "boom"
    (by decide) (by decide)

/-- An epoch-5 progress payload (shaped like the source's epoch-level dict,
with integral metric values). -/
def payloadEpoch5 : PyValue :=
  .pyDict [("epoch", .pyInt 5), ("total_epochs", .pyInt 10),
           ("progress", .pyInt 60), ("train_loss", .pyInt 1), ("val_loss", .pyInt 2)]

/-- A late-arriving epoch-3 payload for the same job. -/
def payloadEpoch3 : PyValue :=
  .pyDict [("epoch", .pyInt 3), ("total_epochs", .pyInt 10),
           ("progress", .pyInt 40), ("train_loss", .pyInt 3), ("val_loss", .pyInt 4)]

/-- **C5, counterexample.**  Writing epoch-5 then epoch-3 payloads for job
`"J1"` to the Progress Channel and reading immediately afterwards returns
the **epoch-3** payload: `_update_training_progress` calls `cache_set`
unconditionally — no code compares the incoming epoch against the cached
one, so the lower-epoch late arrival silently overwrites the higher. -/
theorem channel_read_returns_late_lower_epoch :
    (cache_get
        (cache_set (cache_set Cache.empty (progressKey "J1") payloadEpoch5)
          (progressKey "J1") payloadEpoch3)
        (progressKey "J1") = some payloadEpoch3) ∧
    payloadEpoch3 ≠ payloadEpoch5 := by
  decide

/-- **C5, amended.**  The Progress Channel is last-writer-wins: a read
immediately after two writes for the same key returns the second payload,
whatever its epoch — lower-epoch late arrivals are *not* detected or
discarded. -/
theorem channel_last_writer_wins (c : Cache) (k : String) (v1 v2 : PyValue)
    (h : ∀ s, v2 ≠ .pyStr s) :
    cache_get (cache_set (cache_set c k v1) k v2) k = some v2 := by
  have hset := cache_get_after_set (cache_set c k v1) k v2
  cases v2 with
  | pyStr s => exact absurd rfl (h s)
  | pyNone => simpa using hset
  | pyBool b => simpa using hset
  | pyInt n => simpa using hset
  | pyDict fs => simpa using hset

/-- **C5, amended — witness** at the epoch-5 / epoch-3 payloads. -/
theorem channel_last_writer_wins_witness :
    cache_get
        (cache_set (cache_set Cache.empty (progressKey "J1") payloadEpoch5)
          (progressKey "J1") payloadEpoch3)
        (progressKey "J1") = some payloadEpoch3 :=
  channel_last_writer_wins Cache.empty (progressKey "J1") payloadEpoch5 payloadEpoch3
    (fun s h => by simp [payloadEpoch3] at h)

/-- The first dataset size at which `int(n * 0.8)` diverges from
`⌊0.8 · n⌋` that this development exhibits (about `2 ^ 51` — far beyond any
constructible list, but a genuine divergence of the claim's "floor(0.8·n)"
reading). -/
def hugeN : Nat := 2251799813685236

/-- A dataset record with `hugeN` file ids. -/
def hugeDataset : Dataset :=
  { id := "ds-huge", name := "huge", file_ids := List.replicate hugeN "f",
    labels := some [], status := "ready" }

set_option maxRecDepth 16384 in
/-- **C7, counterexample.**  At `n = 2251799813685236` the binary64 product
`n * 0.8` rounds up across the integer boundary: `int(n * 0.8) =
1801439850948189` while `⌊0.8 · n⌋ = 1801439850948188`, so the training
split does not have exactly `⌊0.8 · n⌋` elements. -/
theorem split_count_diverges_at_huge_n :
    (prepareDatasetConfig hugeDataset).train_files.length ≠ 4 * hugeN / 5 := by
  have hs : splitIndex hugeN = 1801439850948189 := by decide
  have hl : (prepareDatasetConfig hugeDataset).train_files.length
      = min (splitIndex hugeN) hugeN := by
    simp [prepareDatasetConfig, hugeDataset, List.length_take, List.length_replicate]
  rw [hl, hs]
  decide

/-- **C7, amended.**  For every dataset with fewer than `2 ^ 49` file ids —
every dataset a real process can hold — preparation places the first
`⌊0.8 · n⌋` file ids, in stored order, in the training split, the remainder
in the validation split, and each split's labels are the stored labels
restricted to exactly that split's files (unlabeled files dropped). -/
theorem split_is_ordered_80_20 (ds : Dataset) (h : ds.file_ids.length < 2 ^ 49) :
    (prepareDatasetConfig ds).train_files =
      ds.file_ids.take (4 * ds.file_ids.length / 5) ∧
    (prepareDatasetConfig ds).val_files =
      ds.file_ids.drop (4 * ds.file_ids.length / 5) ∧
    (prepareDatasetConfig ds).train_files ++ (prepareDatasetConfig ds).val_files =
      ds.file_ids ∧
    (prepareDatasetConfig ds).train_labels =
      restrictLabels (ds.labels.getD []) (prepareDatasetConfig ds).train_files ∧
    (prepareDatasetConfig ds).val_labels =
      restrictLabels (ds.labels.getD []) (prepareDatasetConfig ds).val_files := by
  have hs := splitIndex_eq ds.file_ids.length h
  refine ⟨?_, ?_, ?_, rfl, rfl⟩
  · simp [prepareDatasetConfig, hs]
  · simp [prepareDatasetConfig, hs]
  · simp [prepareDatasetConfig, List.take_append_drop]

/-- Scenario A's dataset: `f1..f10`, two balanced classes. -/
def scenarioADataset : Dataset :=
  { id := "ds-A", name := "A",
    file_ids := ["f1", "f2", "f3", "f4", "f5", "f6", "f7", "f8", "f9", "f10"],
    labels := some [("f1", 0), ("f2", 1), ("f3", 0), ("f4", 1), ("f5", 0),
                    ("f6", 1), ("f7", 0), ("f8", 1), ("f9", 0), ("f10", 1)],
    status := "ready" }

/-- **C7, amended — witness**: Scenario A, 10 labeled files ⇒ train split
`f1..f8`, validation split `f9, f10`. -/
theorem split_is_ordered_80_20_witness :
    ((prepareDatasetConfig scenarioADataset).train_files =
      scenarioADataset.file_ids.take (4 * scenarioADataset.file_ids.length / 5)) ∧
    ((prepareDatasetConfig scenarioADataset).train_files =
      ["f1", "f2", "f3", "f4", "f5", "f6", "f7", "f8"]) ∧
    ((prepareDatasetConfig scenarioADataset).val_files = ["f9", "f10"]) :=
  ⟨(split_is_ordered_80_20 scenarioADataset (by decide)).1, by decide, by decide⟩

/-- A concrete black-box oracle over `ℕ`-valued parameters: every optimizer
step bumps the parameter storage, all statistics are constant literals. -/
def constOracle : TorchOracle Nat :=
  { paramAfterStep := fun _ _ p => p + 1
    batchLoss := fun _ _ => 1
    trainAcc := fun _ => 1
    valLoss := fun _ => 2
    valAcc := fun _ => 1
    valPrecision := fun _ => 1
    valRecall := fun _ => 1
    valF1 := fun _ => 1
    lrAfterEpoch := fun _ => 1
    finalValLoss := 2
    finalValAcc := 1
    finalValMetrics := ⟨1, 1, 1⟩ }

/-- A small training config: 2 epochs, batches of 2. -/
def cfgSmall : TrainingConfigDict :=
  { epochs := some 2, batch_size := some 2, learning_rate := none,
    weight_decay := none, patience := some 10 }

/-- An oracle whose optimizer steps leave the parameter storage at
`epoch + 1` and whose validation loss is best at epoch 0 (`1`) and worse
(`2`) from epoch 1 on. -/
def aliasOracle : TorchOracle Nat :=
  { constOracle with
      paramAfterStep := fun e _ _ => e + 1
      valLoss := fun e => if e = 0 then 1 else 2 }

/-- Early stopping after one non-improving epoch. -/
def cfgPatienceOne : TrainingConfigDict :=
  { epochs := some 10, batch_size := some 32, learning_rate := none,
    weight_decay := none, patience := some 1 }

/-- **C4 (code bug).**  Run with `patience = 1` and validation losses
`1, 2, …` on Scenario A's data (8 training records, one batch per epoch):
the loop *does* stop at `best_epoch + patience = 0 + 1 = 1` — but the
restored live parameters equal `2`, the **last** epoch's value, not the
best epoch's value `1`.  `best_model_state = self.model.state_dict().copy()`
is a shallow `dict.copy()`: its tensors alias the live parameter storage
that `optimizer.step()` mutates in place, so the `# Load best model`
restore at the end of `train` copies the current values onto themselves —
a no-op.  The spec (and the code's own comment) intend the epoch-0
snapshot. -/
theorem best_model_restore_reads_live_parameters :
    ((trainRun aliasOracle cfgPatienceOne (prepareDatasetConfig scenarioADataset)
        0).toOption.map
      (fun o => (o.stoppedEpoch, o.finalState.param, bestEpochParamValue o))) =
      some (1, 2, some 1) ∧
    (2 : Nat) ≠ 1 := by
  decide

/-! ## Structure of the notification stream (for the progress-monotonicity
claim) -/

/-- The `progress` values carried by the epoch-level notifications of a
stream, in order (batch-level notifications carry no `progress` key). -/
def epochProgressVals (notes : List Note) : List ℚ :=
  notes.filterMap fun n =>
    match n with
    | .epochNote _ _ p _ _ _ _ _ _ => some p
    | _ => none

theorem toProgressData_epoch (n : Note) : (Note.toProgressData n).epoch = some n.epochOf := by
  cases n <;> rfl

/-- Applying any progress update writes the payload's epoch into
`current_epoch`. -/
theorem applyProgress_current_epoch (now : Nat) (rec : JobRecord) (n : Note) :
    (applyTrainingProgress now rec n.toProgressData).current_epoch = n.epochOf := by
  cases n <;> rfl

/-- A batch-level update resets `progress_percentage` to 0: its payload has
no `progress` key, and `_update_training_progress` falls back to
`.get("progress", 0)`. -/
theorem applyProgress_batch_resets_progress (now : Nat) (rec : JobRecord)
    (e b : Nat) (bp l : ℚ) :
    (applyTrainingProgress now rec
      (Note.toProgressData (.batchNote e b bp l))).progress_percentage = 0 := rfl

/-- The `current_epoch` trajectory of a job record under a stream of
updates applied in order: the starting value followed by each payload's
epoch. -/
theorem scan_current_epoch (now : Nat) (rec : JobRecord) (notes : List Note) :
    (((notes.map Note.toProgressData).scanl (applyTrainingProgress now) rec).map
        (fun r => r.current_epoch)) =
      rec.current_epoch :: notes.map Note.epochOf := by
  induction notes generalizing rec with
  | nil => rfl
  | cons n t ih =>
      simp only [List.map_cons, List.scanl_cons, List.singleton_append]
      rw [ih, applyProgress_current_epoch]

/-- Every notification produced inside `train_epoch`'s batch loop is a
batch-level note for that epoch. -/
theorem batchFold_notes {P : Type} (oracle : TorchOracle P) (e nb : Nat) :
    ∀ (l : List Nat) (acc : P × ℚ × List Note),
      ∀ x ∈ (l.foldl (batchStep oracle e nb) acc).2.2,
        x ∈ acc.2.2 ∨ ∃ b bp lo, x = Note.batchNote e b bp lo := by
  intro l
  induction l with
  | nil => intro acc x hx; exact Or.inl hx
  | cons a t ih =>
      intro acc x hx
      rcases ih (batchStep oracle e nb acc a) x hx with h | h
      · simp only [batchStep] at h
        split at h
        · rcases List.mem_append.mp h with h2 | h2
          · exact Or.inl h2
          · simp at h2
            exact Or.inr ⟨a, _, _, h2⟩
        · exact Or.inl h
      · exact Or.inr h

/-- The notes emitted by one `train_epoch` call: all batch-level, all for
that epoch. -/
theorem trainEpochRun_notes {P : Type} (oracle : TorchOracle P) (e nb : Nat)
    (param : P) (param1 : P) (tl : ℚ) (bn : List Note)
    (h : trainEpochRun oracle e nb param = Except.ok (param1, tl, bn)) :
    ∀ x ∈ bn, ∃ b bp lo, x = Note.batchNote e b bp lo := by
  intro x hx
  unfold trainEpochRun at h
  split at h
  · exact absurd h (by simp)
  · have hinj := h
    simp only [Except.ok.injEq] at hinj
    have hbn : bn = ((List.range nb).foldl (batchStep oracle e nb) (param, 0, [])).2.2 :=
      (congrArg (fun p => p.2.2) hinj).symm
    rw [hbn] at hx
    rcases batchFold_notes oracle e nb (List.range nb) (param, 0, []) x hx with h2 | h2
    · simp at h2
    · exact h2

/-- Batch-level notes contribute nothing to the epoch-progress stream. -/
theorem epochProgressVals_batch_nil (e : Nat) (l : List Note)
    (h : ∀ x ∈ l, ∃ b bp lo, x = Note.batchNote e b bp lo) :
    epochProgressVals l = [] := by
  unfold epochProgressVals
  rw [List.filterMap_eq_nil_iff]
  intro a ha
  obtain ⟨b, bp, lo, rfl⟩ := h a ha
  rfl

theorem epochProgressVals_append (a b : List Note) :
    epochProgressVals (a ++ b) = epochProgressVals a ++ epochProgressVals b :=
  List.filterMap_append a b _

theorem mem_of_getLastQ {α : Type} {l : List α} {x : α} (h : x ∈ l.getLast?) :
    x ∈ l := by
  obtain ⟨hne, rfl⟩ := List.mem_getLast?_eq_getLast h
  exact List.getLast_mem hne

theorem mem_of_headQ {α : Type} {l : List α} {x : α} (h : x ∈ l.head?) : x ∈ l := by
  cases l with
  | nil => simp at h
  | cons a t =>
      simp at h
      subst h
      simp

/-- A constant block appended to a bounded non-decreasing stream keeps it
non-decreasing. -/
theorem chain_le_append_block (a b : List Nat) (e : Nat)
    (ha : List.Chain' (· ≤ ·) a) (hae : ∀ x ∈ a, x ≤ e) (hbe : ∀ x ∈ b, x = e) :
    List.Chain' (· ≤ ·) (a ++ b) := by
  rw [List.chain'_append]
  refine ⟨ha, ?_, ?_⟩
  · induction b with
    | nil => simp
    | cons y t ih =>
        cases t with
        | nil => simp
        | cons z t2 =>
            rw [List.chain'_cons]
            constructor
            · have hy := hbe y (by simp)
              have hz := hbe z (by simp)
              omega
            · exact ih (fun w hw => hbe w (List.mem_cons_of_mem _ hw))
  · intro x hx y hy
    have hxa : x ∈ a := mem_of_getLastQ hx
    have hyb : y ∈ b := mem_of_headQ hy
    have := hae x hxa
    have := hbe y hyb
    omega

/-- Appending a strict upper bound to a strictly increasing stream keeps it
strictly increasing. -/
theorem chain_lt_snoc (a : List ℚ) (v : ℚ)
    (ha : List.Chain' (· < ·) a) (hv : ∀ x ∈ a, x < v) :
    List.Chain' (· < ·) (a ++ [v]) := by
  rw [List.chain'_append]
  refine ⟨ha, by simp, ?_⟩
  intro x hx y hy
  have hxa : x ∈ a := mem_of_getLastQ hx
  simp at hy
  subst hy
  exact hv x hxa

/-- Invariants of the epoch loop's notification stream: epochs are emitted
in non-decreasing order, and the `progress` values of the epoch-level
notifications are strictly increasing. -/
theorem trainLoopGo_notes_inv {P : Type} (oracle : TorchOracle P)
    (params : TrainerParams) (nb : Nat) :
    ∀ (remaining : Nat) (epoch : Nat) (st : TrainerLoopState P)
      (notes : List Note) (trace : List P)
      (out : TrainerLoopState P × List Note × List P),
      trainLoopGo oracle params nb epoch remaining st notes trace = Except.ok out →
      epoch + remaining = params.epochs →
      List.Chain' (· ≤ ·) (notes.map Note.epochOf) →
      (∀ x ∈ notes, x.epochOf ≤ epoch) →
      List.Chain' (· < ·) (epochProgressVals notes) →
      (∀ q ∈ epochProgressVals notes,
        ∃ e', e' < epoch ∧ q = ((e' : ℚ) + 1) / (params.epochs : ℚ) * 100) →
      List.Chain' (· ≤ ·) (out.2.1.map Note.epochOf) ∧
      List.Chain' (· < ·) (epochProgressVals out.2.1) := by
  intro remaining
  induction remaining with
  | zero =>
      intro epoch st notes trace out hrun _ hchain _ hpchain _
      simp only [trainLoopGo, Except.ok.injEq] at hrun
      rw [← hrun]
      exact ⟨hchain, hpchain⟩
  | succ r ih =>
      intro epoch st notes trace out hrun hsum hchain hle hpchain hpvals
      rcases hE : trainEpochRun oracle epoch nb st.param with e | trip
      · simp only [trainLoopGo, hE] at hrun
        simp at hrun
      · obtain ⟨param1, train_loss, batchNotes⟩ := trip
        simp only [trainLoopGo, hE] at hrun
        have hbn : ∀ x ∈ batchNotes, ∃ b bp lo, x = Note.batchNote epoch b bp lo :=
          trainEpochRun_notes oracle epoch nb st.param param1 train_loss batchNotes hE
        have hbnE : ∀ x ∈ batchNotes, x.epochOf = epoch := by
          intro x hx
          obtain ⟨b, bp, lo, rfl⟩ := hbn x hx
          rfl
        have hpvB : epochProgressVals batchNotes = [] :=
          epochProgressVals_batch_nil epoch batchNotes hbn
        have hEpos : (0 : ℚ) < (params.epochs : ℚ) := by
          have h1 : 0 < params.epochs := by omega
          exact_mod_cast h1
        -- the appended epoch note, as the loop builds it
        set eN : Note := Note.epochNote epoch params.epochs
          (((epoch : ℚ) + 1) / ((params.epochs : ℚ)) * 100)
          train_loss (oracle.valLoss epoch) (oracle.trainAcc epoch)
          (oracle.valAcc epoch) (oracle.lrAfterEpoch epoch)
          ⟨oracle.valPrecision epoch, oracle.valRecall epoch, oracle.valF1 epoch⟩
          with heN
        have hchain1 : List.Chain' (· ≤ ·)
            ((notes ++ batchNotes ++ [eN]).map Note.epochOf) := by
          rw [List.append_assoc, List.map_append]
          apply chain_le_append_block _ _ epoch hchain
          · intro x hx
            obtain ⟨y, hy, rfl⟩ := List.mem_map.mp hx
            exact hle y hy
          · intro x hx
            obtain ⟨y, hy, rfl⟩ := List.mem_map.mp hx
            rcases List.mem_append.mp hy with h2 | h2
            · exact hbnE y h2
            · simp at h2
              subst h2
              rfl
        have hle1 : ∀ x ∈ notes ++ batchNotes ++ [eN], x.epochOf ≤ epoch + 1 := by
          intro x hx
          rcases List.mem_append.mp hx with h2 | h2
          · rcases List.mem_append.mp h2 with h3 | h3
            · exact Nat.le_succ_of_le (hle x h3)
            · exact Nat.le_succ_of_le (Nat.le_of_eq (hbnE x h3))
          · simp at h2
            subst h2
            exact Nat.le_succ _
        have hpv1 : epochProgressVals (notes ++ batchNotes ++ [eN]) =
            epochProgressVals notes ++
              [((epoch : ℚ) + 1) / ((params.epochs : ℚ)) * 100] := by
          rw [epochProgressVals_append, epochProgressVals_append, hpvB, heN]
          simp [epochProgressVals]
        have hnew_gt : ∀ q ∈ epochProgressVals notes,
            q < ((epoch : ℚ) + 1) / ((params.epochs : ℚ)) * 100 := by
          intro q hq
          obtain ⟨e', he', rfl⟩ := hpvals q hq
          have he'q : ((e' : ℚ) + 1) < ((epoch : ℚ) + 1) := by
            have : (e' : ℚ) < (epoch : ℚ) := by exact_mod_cast he'
            linarith
          gcongr
        have hpchain1 : List.Chain' (· < ·)
            (epochProgressVals (notes ++ batchNotes ++ [eN])) := by
          rw [hpv1]
          exact chain_lt_snoc _ _ hpchain hnew_gt
        have hpvals1 : ∀ q ∈ epochProgressVals (notes ++ batchNotes ++ [eN]),
            ∃ e', e' < epoch + 1 ∧ q = ((e' : ℚ) + 1) / (params.epochs : ℚ) * 100 := by
          intro q hq
          rw [hpv1] at hq
          rcases List.mem_append.mp hq with h2 | h2
          · obtain ⟨e', he', rfl⟩ := hpvals q h2
            exact ⟨e', by omega, rfl⟩
          · simp at h2
            subst h2
            exact ⟨epoch, by omega, rfl⟩
        repeat' split at hrun
        all_goals
          first
          | (simp only [Except.ok.injEq] at hrun
             rw [← hrun]
             exact ⟨hchain1, hpchain1⟩)
          | exact ih (epoch + 1) _ _ _ out hrun (by omega) hchain1 hle1 hpchain1 hpvals1

/-- The notification stream of a completed `train` call inherits the loop
invariants. -/
theorem trainRun_notes_inv {P : Type} (oracle : TorchOracle P)
    (tcfg : TrainingConfigDict) (cfg : DatasetConfig) (param0 : P)
    (outcome : TrainRunOutcome P)
    (h : trainRun oracle tcfg cfg param0 = Except.ok outcome) :
    List.Chain' (· ≤ ·) (outcome.notes.map Note.epochOf) ∧
    List.Chain' (· < ·) (epochProgressVals outcome.notes) := by
  simp only [trainRun] at h
  rcases hL : trainLoopGo oracle (trainerInit tcfg)
      (numBatches (validFiles cfg.train_files cfg.train_labels).length
        (trainerInit tcfg).batch_size)
      0 (trainerInit tcfg).epochs (initLoopState param0) [] [] with e | out3
  · rw [hL] at h
    simp at h
  · rw [hL] at h
    obtain ⟨st, notes, trace⟩ := out3
    simp only [Except.ok.injEq] at h
    have hnotes : outcome.notes = notes := by rw [← h]
    rw [hnotes]
    have := trainLoopGo_notes_inv oracle (trainerInit tcfg)
      (numBatches (validFiles cfg.train_files cfg.train_labels).length
        (trainerInit tcfg).batch_size)
      (trainerInit tcfg).epochs 0 (initLoopState param0) [] [] (st, notes, trace)
      hL (by omega) (by simp) (by simp) (by simp [epochProgressVals])
      (by simp [epochProgressVals])
    exact this

/-- **C6, amended.**  Over the updates a training run applies to the Job
Record, in emission order: `current_epoch` is non-decreasing (the
trajectory is the starting value followed by each payload's epoch, and the
emitted epochs never decrease); the `progress` fields of the *epoch-level*
updates are strictly increasing; but `progress_percentage` as a whole is
**not** monotone — every batch-level update resets it to 0, because the
batch payload has no `progress` key and `_update_training_progress` falls
back to `.get("progress", 0)`. -/
theorem progress_updates_monotone_epochs {P : Type} (oracle : TorchOracle P)
    (tcfg : TrainingConfigDict) (cfg : DatasetConfig) (param0 : P)
    (outcome : TrainRunOutcome P) (now : Nat) (rec : JobRecord)
    (h : trainRun oracle tcfg cfg param0 = Except.ok outcome)
    (hrec : rec.current_epoch = 0) :
    (((outcome.notes.map Note.toProgressData).scanl (applyTrainingProgress now)
        rec).map (fun r => r.current_epoch) =
      rec.current_epoch :: outcome.notes.map Note.epochOf) ∧
    List.Chain' (· ≤ ·)
      (((outcome.notes.map Note.toProgressData).scanl (applyTrainingProgress now)
          rec).map (fun r => r.current_epoch)) ∧
    List.Chain' (· < ·) (epochProgressVals outcome.notes) ∧
    (∀ (r : JobRecord) (e b : Nat) (bp l : ℚ),
      (applyTrainingProgress now r
        (Note.toProgressData (.batchNote e b bp l))).progress_percentage = 0) := by
  obtain ⟨hchain, hpchain⟩ := trainRun_notes_inv oracle tcfg cfg param0 outcome h
  refine ⟨scan_current_epoch now rec outcome.notes, ?_, hpchain,
    fun r e b bp l => applyProgress_batch_resets_progress now r e b bp l⟩
  rw [scan_current_epoch now rec outcome.notes, hrec]
  rw [List.chain'_cons']
  exact ⟨fun y _ => Nat.zero_le y, hchain⟩

/-- The job record while training runs (status `"running"`). -/
def jobRunningC6 : JobRecord := { exampleQueuedJob with status := "running" }

/-- A prepared dataset config with a single labeled training file (one
batch per epoch). -/
def c6DataCfg : DatasetConfig :=
  { train_files := ["f1"], val_files := ["f1"],
    train_labels := [("f1", 0)], val_labels := [("f1", 0)],
    augmentation :=
      { enable_rotation := true, enable_flip := true,
        enable_cad_augmentation := true, rotation_degrees := 15,
        flip_probability := 1 / 2, cad_augmentation_probability := 3 / 10 } }

/-- The notification stream the 2-epoch run below emits, as literals. -/
def c6Notes : List Note :=
  [.batchNote 0 0 0 1,
   .epochNote 0 2 50 1 2 1 1 1 ⟨1, 1, 1⟩,
   .batchNote 1 0 0 1,
   .epochNote 1 2 100 1 2 1 1 1 ⟨1, 1, 1⟩]

/-- **C6, counterexample.**  A 2-epoch run (one batch per epoch) emits
batch-level and epoch-level notifications; applied in order to a running
job record, `progress_percentage` goes `0, 0, 50, 0, 100` — the batch
notification of epoch 1 resets it from 50 back to 0 (its payload has no
`progress` key), so the percentage does not strictly increase over the
applied updates. -/
theorem progress_percentage_regresses :
    ((trainRun constOracle cfgSmall c6DataCfg 0).toOption.map (fun o => o.notes) =
      some c6Notes) ∧
    (((c6Notes.map Note.toProgressData).scanl (applyTrainingProgress 7)
        jobRunningC6).map (fun r => r.progress_percentage) =
      [0, 0, 50, 0, 100]) ∧
    ¬ List.Chain' (· < ·) [(0 : ℚ), 0, 50, 0, 100] := by
  refine ⟨?_, by decide, ?_⟩
  swap
  · intro hc
    have h01 := (List.chain'_cons.mp hc).1
    norm_num at h01
  have hL : trainLoopGo constOracle (trainerInit cfgSmall) 1 0 2
      (initLoopState (0 : Nat)) [] [] =
      Except.ok
        ({ param := 2, best_val_loss := some 2,
           best_model_state := some StateDictRef.live,
           early_stopping_counter := 1, current_epoch := 1,
           history_train_loss := [1, 1], history_val_loss := [2, 2] },
         c6Notes, [1, 2]) := by
    simp +decide only [trainLoopGo, initLoopState, trainerInit, cfgSmall,
      constOracle, trainEpochRun, batchStep, List.range_succ, List.range_zero,
      List.foldl_append, List.foldl_cons, List.foldl_nil, Option.getD]
    norm_num [c6Notes]
  have hnb : numBatches (validFiles c6DataCfg.train_files c6DataCfg.train_labels).length
      (trainerInit cfgSmall).batch_size = 1 := by decide
  simp only [trainRun, hnb]
  rw [show (trainerInit cfgSmall).epochs = 2 from rfl, hL]
  rfl

/-- The outcome of the concrete 2-epoch run (defaulting, never used, to an
empty outcome). -/
def c6RunOutcome : TrainRunOutcome Nat :=
  (trainRun constOracle cfgSmall c6DataCfg 0).toOption.getD
    ⟨initLoopState 0, [], 0, []⟩

/-- **C6, amended — witness** at the concrete 2-epoch run. -/
theorem progress_updates_monotone_epochs_witness :
    jobRunningC6.current_epoch = 0 ∧
    List.Chain' (· ≤ ·)
      (((c6RunOutcome.notes.map Note.toProgressData).scanl
          (applyTrainingProgress 7) jobRunningC6).map (fun r => r.current_epoch)) ∧
    List.Chain' (· < ·) (epochProgressVals c6RunOutcome.notes) := by
  have hok : trainRun constOracle cfgSmall c6DataCfg 0 = Except.ok c6RunOutcome := by
    have hsome : (trainRun constOracle cfgSmall c6DataCfg 0).toOption.isSome = true := by
      decide
    rcases h : trainRun constOracle cfgSmall c6DataCfg 0 with e | o
    · rw [h] at hsome
      simp [Except.toOption] at hsome
    · simp [c6RunOutcome, h, Except.toOption]
  have hmain := progress_updates_monotone_epochs constOracle cfgSmall c6DataCfg 0
    c6RunOutcome 7 jobRunningC6 hok (by decide)
  exact ⟨by decide, hmain.2.1, hmain.2.2.1⟩

end CAI
